import Mathlib

/-!
Verification development for the form-data repository (a streaming decoder
for multipart/form-data, RFC 7578).

The development shallowly embeds the Rust sources:

* utils.rs       : byte constants, parse_content_disposition, header parsing
* limits.rs      : the Limits configuration record and its checked_* helpers
* state.rs       : the older boundary-scanning state machine (poll_next)
* state copy 2.rs: the second historical scanner variant
* form.rs        : FormData::poll_next and FormData::set_max_buf_size
* field.rs       : Field::poll_next
* async.rs       : the Stream loop driving State::decode

Bytes are modelled as Nat (values < 256; no byte arithmetic occurs), byte
buffers as List Nat, and the pull-based streams as explicit state-passing
step functions.  Polling loops are modelled with explicit fuel; running out
of fuel is a distinguished outcome (never identified with a real result).
-/

namespace FormData

/-- A byte of the wire format.  Only values below 256 occur. -/
abbrev Byte := Nat

/-- ASCII bytes of a string literal (all literals used are 7-bit ASCII). -/
def ascii (s : String) : List Byte := s.data.map Char.toNat

def CR : Byte := 13
def LF : Byte := 10
def DASH : Byte := 45

/-- utils.rs: CRLF. -/
def CRLF : List Byte := [CR, LF]

/-- utils.rs: CRLFCRLF / CRLFS, the header-block terminator. -/
def CRLFCRLF : List Byte := [CR, LF, CR, LF]

/-- utils.rs: CRLF_DASH_DASH / CRLF_DASHES. -/
def CRLFDD : List Byte := [CR, LF, DASH, DASH]

/-- utils.rs: DASHES. -/
def DASHES : List Byte := [DASH, DASH]

/-- utils.rs / limits.rs: the 8 KiB default (and minimum) buffer size. -/
def DEFAULT_BUF_SIZE : Nat := 8 * 1024

/-- Modelled from the spec: the read_until helper of utils.rs (not present
in this snapshot of src; state.rs calls it) and memmem::find used by
state copy 2.rs.  Returns the start index of the first occurrence of pat
in buf (the occurrence must fit entirely inside buf), or none. -/
def findSub (pat : List Byte) (buf : List Byte) : Option Nat :=
  if pat.isPrefixOf buf then some 0
  else
    match buf with
    | [] => none
    | _ :: t => (findSub pat t).map (· + 1)

/-! ## The legacy scanner of state.rs

A faithful transliteration of the Stream implementation for State in
state.rs: the io transport is a list of ready byte chunks (transport
errors and Poll::Pending from the transport are not modelled, all chunks
arrive Ok), buffer is an Option mirroring the lazily initialised
BytesMut, and the poll loop runs on explicit fuel. -/

namespace Legacy

/-- state.rs enum Flag. -/
inductive Flag where
  | header
  | body
deriving DecidableEq, Repr

/-- state.rs: crlf_d_b_crlf, built by Cursor::new from the boundary. -/
def delimOpen (b : List Byte) : List Byte := CR :: LF :: DASH :: DASH :: (b ++ CRLF)

/-- state.rs: crlf_d_b_d_crlf, built by Cursor::new from the boundary. -/
def delimClose (b : List Byte) : List Byte :=
  CR :: LF :: DASH :: DASH :: (b ++ (DASH :: DASH :: CRLF))

/-- state.rs struct Cursor. -/
structure Cursor where
  z : Bool
  flag : Flag
  x : Option Nat
  y : Option Nat
  crlf_d_b_crlf : List Byte
  crlf_d_b_d_crlf : List Byte
deriving DecidableEq, Repr

/-- state.rs Cursor::new. -/
def Cursor.new (b : List Byte) : Cursor :=
  { x := none, y := none, z := false, flag := .body
    crlf_d_b_crlf := delimOpen b
    crlf_d_b_d_crlf := delimClose b }

/-- state.rs struct State (the waker field plays no role in poll_next and
is omitted; io errors are not modelled). -/
structure State where
  io : List (List Byte)
  eof : Bool
  length : Nat
  cursor : Cursor
  boundary : List Byte
  index : Option Nat
  buffer : Option (List Byte)
  max_buf_size : Nat
deriving DecidableEq, Repr

/-- state.rs State::new. -/
def State.new (b : List Byte) (io : List (List Byte)) : State :=
  { io, cursor := Cursor.new b, boundary := b, length := 0, eof := false
    index := none, buffer := none, max_buf_size := DEFAULT_BUF_SIZE }

/-- state.rs State::set_max_buf_size; the assert! panic is modelled as none. -/
def State.set_max_buf_size (st : State) (max : Nat) : Option State :=
  if max ≥ DEFAULT_BUF_SIZE then some { st with max_buf_size := max } else none

/-- The buffer contents (state.rs State::buffer unwraps; poll_next
initialises the buffer before any access, so the none default is inert). -/
def State.buf (st : State) : List Byte := st.buffer.getD []

/-- Outcome of one iteration of the poll_next loop, tagged by the source
branch that produced it: yieldBody covers the three bounded body-data
returns (the new-part branch on y, the keep-consuming branch on x, and
the oversized-buffer flush), yieldLast the last-data-of-last-part return
on z, and yieldHeader the header-block return of the Flag::Header arm. -/
inductive StepRes where
  | yieldBody (c : List Byte) (st : State)
  | yieldLast (c : List Byte) (st : State)
  | yieldHeader (c : List Byte) (st : State)
  | retNone (st : State)
  | cont (st : State)
deriving DecidableEq, Repr

/-- state.rs poll_next, lines 283-318: the second half of the Flag::Body
block (keep consuming the current part, then look for the closing
delimiter).  xv is the local variable x of the Rust code. -/
def bodyTail (st : State) (xv : Nat) : Sum State StepRes :=
  if st.cursor.flag ≠ .body then .inl st
  else if xv > 0 then
    let p := if xv < st.max_buf_size
      then ({ st with cursor := { st.cursor with x := none } }, xv)
      else ({ st with cursor := { st.cursor with x := some (xv - st.max_buf_size) } },
            st.max_buf_size)
    .inr (.yieldBody (p.1.buf.take p.2) { p.1 with buffer := some (p.1.buf.drop p.2) })
  else
    match findSub st.cursor.crlf_d_b_d_crlf st.buf with
    | some z0 =>
      let st := { st with eof := true
                          cursor := { st.cursor with x := none, y := none, flag := .body } }
      if z0 = 0 then
        let rest := st.buf.drop st.cursor.crlf_d_b_d_crlf.length
        .inr (.retNone { st with length := st.length - rest.length, buffer := some [] })
      else
        .inr (.yieldLast (st.buf.take z0) { st with buffer := some (st.buf.drop z0) })
    | none => .inl st

/-- state.rs poll_next, lines 252-281: the found-new-part block (y is
Some): arm the Header flag when the match is within the buffer bound,
then, when a previous part exists, end it (y = 0) or yield its trailing
data in a bounded chunk; otherwise fall through to the second half. -/
def bodyYSome (st : State) (xv y0 : Nat) : Sum State StepRes :=
  let st := if y0 < st.max_buf_size
    then { st with cursor := { st.cursor with x := none, flag := .header } }
    else st
  if st.index.isSome then
    if y0 = 0 then .inr (.retNone st)
    else
      let q := if y0 < st.max_buf_size
        then ({ st with cursor := { st.cursor with z := true, y := none } }, y0)
        else ({ st with cursor := { st.cursor with y := some (y0 - st.max_buf_size) } },
              st.max_buf_size)
      .inr (.yieldBody (q.1.buf.take q.2) { q.1 with buffer := some (q.1.buf.drop q.2) })
  else bodyTail st xv

/-- state.rs poll_next, lines 247-318: compute y (the full-delimiter
match) when unset, then dispatch on it; xv is the local variable x. -/
def bodyYPhase (st : State) (xv : Nat) : Sum State StepRes :=
  let st := if st.cursor.y = none
    then { st with cursor := { st.cursor with y := findSub st.cursor.crlf_d_b_crlf st.buf } }
    else st
  match st.cursor.y with
  | some y0 => bodyYSome st xv y0
  | none => bodyTail st xv

/-- state.rs poll_next, lines 232-324: the Flag::Body block: compute x
(the partial-delimiter match) when unset; with no match, flush a bounded
chunk when the buffer outgrew the limit inside a part; with a match,
discard pre-first-part data and continue with y. -/
def bodyPhase (st : State) : Sum State StepRes :=
  if st.cursor.flag ≠ .body then .inl st
  else
    let st := if st.cursor.x = none
      then { st with cursor := { st.cursor with x := findSub CRLFDD st.buf } }
      else st
    match st.cursor.x with
    | none =>
      if st.index.isSome ∧ st.buf.length > st.max_buf_size then
        .inr (.yieldBody (st.buf.take st.max_buf_size)
              { st with buffer := some (st.buf.drop st.max_buf_size) })
      else .inl st
    | some x0 =>
      if st.index = none ∧ x0 > 0 then
        bodyYPhase { st with buffer := some (st.buf.drop x0)
                             cursor := { st.cursor with x := some 0 } } 0
      else bodyYPhase st x0

/-- state.rs poll_next, lines 327-345: the Flag::Header block. -/
def headerPhase (st : State) : Sum State StepRes :=
  if st.cursor.flag ≠ .header then .inl st
  else if st.cursor.z then
    .inr (.retNone { st with cursor := { st.cursor with z := false } })
  else
    match findSub CRLFCRLF st.buf with
    | some h =>
      .inr (.yieldHeader ((st.buf.take (h + 4)).drop st.cursor.crlf_d_b_crlf.length)
            { st with buffer := some (st.buf.drop (h + 4))
                      cursor := { st.cursor with x := none, y := none, flag := .body } })
    | none => .inl st

/-- state.rs poll_next, lines 351-369: pulling one chunk from the io
stream (all chunks arrive Ok; end of the transport sets eof). -/
def ioPhase (st : State) : StepRes :=
  match st.io with
  | [] => .cont { st with eof := true }
  | c :: rest =>
    .cont { st with io := rest, length := st.length + c.length
                    buffer := some (st.buf ++ c) }

/-- One iteration of the poll_next loop of state.rs. -/
def step (st : State) : StepRes :=
  match bodyPhase st with
  | .inr r => r
  | .inl st =>
    match headerPhase st with
    | .inr r => r
    | .inl st => if st.eof then .retNone st else ioPhase st

/-- Result of one call of State::poll_next. -/
inductive Poll where
  | yld (c : List Byte)
  | done
  | stuck
deriving DecidableEq, Repr

/-- The poll_next loop, with fuel bounding the number of iterations. -/
def runLoop : Nat → State → State × Poll
  | 0, st => (st, .stuck)
  | fuel + 1, st =>
    match step st with
    | .yieldBody c st => (st, .yld c)
    | .yieldLast c st => (st, .yld c)
    | .yieldHeader c st => (st, .yld c)
    | .retNone st => (st, .done)
    | .cont st => runLoop fuel st

/-- state.rs State::poll_next: initialise the CRLF placeholder buffer,
then run the loop. -/
def pollNext (fuel : Nat) (st : State) : State × Poll :=
  runLoop fuel (if st.buffer = none then { st with buffer := some CRLF } else st)

end Legacy

/-! ## The second historical scanner, state copy 2.rs -/

namespace Legacy2

/-- state copy 2.rs struct State (parse flags inlined; dbg! calls are pure
tracing and are not modelled). -/
structure State where
  io : List (List Byte)
  eof : Bool
  length : Nat
  total : Nat
  boundary : List Byte
  buffer : List Byte
  max_buf_size : Nat
  f : Legacy.Flag
  x : Option Nat
  y : Option Nat
  z : Bool
deriving DecidableEq, Repr

/-- state copy 2.rs State::new (buffer starts as the CRLF placeholder). -/
def State.new (b : List Byte) (io : List (List Byte)) : State :=
  { io, boundary := b, total := 0, length := 0, eof := false, buffer := CRLF
    max_buf_size := DEFAULT_BUF_SIZE, f := .body, x := none, y := none, z := false }

/-- state copy 2.rs: min_size, the length of CRLF ++ dashes ++ boundary ++ CRLF. -/
def State.minSize (st : State) : Nat := 2 + 2 + st.boundary.length + 2

/-- Loop-iteration outcome for the copy-2 scanner. -/
inductive StepRes where
  | yld (c : List Byte) (st : State)
  | retNone (st : State)
  | cont (st : State)
deriving DecidableEq, Repr

/-- state copy 2.rs poll_next, lines 248-281: the block guarded by
x.is_some (match the bare boundary, then classify the two trailing
bytes as DASHES, CRLF, or anything else). -/
def xsomePhase (st : State) : Sum State StepRes :=
  let st :=
    if st.buffer.length ≥ st.minSize - 4 ∧ st.y = none ∧
        st.buffer.take (st.minSize - 4 - 2) = st.boundary then
      { st with buffer := st.buffer.drop (st.minSize - 4 - 2), y := some 0, f := .header }
    else st
  if st.buffer.length ≥ 2 ∧ st.y.isSome then
    if st.buffer.take 2 = DASHES then
      let rest := st.buffer.drop 2
      .inr (.retNone { st with buffer := [], length := st.length - rest.length, eof := true })
    else if st.buffer.take 2 = CRLF then
      .inl { st with x := none, y := none, f := .header, buffer := st.buffer.drop 2 }
    else .inl st
  else .inl st

/-- state copy 2.rs poll_next, lines 227-282: the Flag::Body block. -/
def bodyPhase (st : State) : Sum State StepRes :=
  if st.f ≠ .body then .inl st
  else
    if st.x = none then
      if st.buffer.length ≥ st.minSize then
        match findSub CRLFDD st.buffer with
        | some x0 =>
          if st.z then
            .inr (.yld (st.buffer.take x0)
                  { st with buffer := (st.buffer.drop x0).drop 4, x := some 0 })
          else xsomePhase { st with buffer := st.buffer.drop (x0 + 4), x := some 0 }
        | none => .inl st
      else .inl st
    else xsomePhase st

/-- state copy 2.rs poll_next, lines 284-301: the Flag::Header block. -/
def headerPhase (st : State) : Sum State StepRes :=
  if st.f ≠ .header then .inl st
  else if st.z then .inr (.retNone { st with z := false })
  else
    match findSub CRLFCRLF st.buffer with
    | some h =>
      .inr (.yld (st.buffer.take (h + 4))
            { st with buffer := st.buffer.drop (h + 4)
                      x := none, y := none, z := true, f := .body })
    | none => .inl st

/-- state copy 2.rs poll_next, lines 305-323: pull one chunk from io
(the end of the transport returns Ready None at once). -/
def ioPhase (st : State) : StepRes :=
  match st.io with
  | [] => .retNone { st with eof := true }
  | c :: rest =>
    .cont { st with io := rest, length := st.length + c.length
                    buffer := st.buffer ++ c }

/-- One iteration of the copy-2 poll_next loop. -/
def step (st : State) : StepRes :=
  if st.eof then .retNone st
  else
    match bodyPhase st with
    | .inr r => r
    | .inl st =>
      match headerPhase st with
      | .inr r => r
      | .inl st => ioPhase st

/-- The copy-2 poll_next loop on fuel. -/
def runLoop : Nat → State → State × Legacy.Poll
  | 0, st => (st, .stuck)
  | fuel + 1, st =>
    match step st with
    | .yld c st => (st, .yld c)
    | .retNone st => (st, .done)
    | .cont st => runLoop fuel st

/-- state copy 2.rs State::poll_next. -/
def pollNext (fuel : Nat) (st : State) : State × Legacy.Poll := runLoop fuel st

end Legacy2

/-! ## limits.rs -/

/-- limits.rs struct Limits. -/
structure Limits where
  field_name_size : Option Nat
  field_size : Option Nat
  fields : Option Nat
  file_size : Option Nat
  files : Option Nat
  parts : Option Nat
  stream_size : Option Nat
  buffer_size : Nat
deriving DecidableEq, Repr

namespace Limits

/-- limits.rs: Limits::default. -/
def default : Limits :=
  { field_name_size := some 100
    field_size := some (100 * 1024)
    fields := none
    file_size := some (10 * 1024 * 1024)
    files := none
    parts := none
    stream_size := some (200 * 1024 * 1024)
    buffer_size := 8 * 1024 }

/-- limits.rs: the Limits::buffer_size builder; its assert! panic on a
value below DEFAULT_BUFFER_SIZE is modelled as none. -/
def buffer_size_builder (l : Limits) (max : Nat) : Option Limits :=
  if max ≥ DEFAULT_BUF_SIZE then some { l with buffer_size := max } else none

/-- limits.rs: checked_parts (some max when the bound is set and exceeded). -/
def checked_parts (l : Limits) (rhs : Nat) : Option Nat :=
  match l.parts with
  | some m => if rhs > m then some m else none
  | none => none

/-- limits.rs: checked_fields. -/
def checked_fields (l : Limits) (rhs : Nat) : Option Nat :=
  match l.fields with
  | some m => if rhs > m then some m else none
  | none => none

/-- limits.rs: checked_files. -/
def checked_files (l : Limits) (rhs : Nat) : Option Nat :=
  match l.files with
  | some m => if rhs > m then some m else none
  | none => none

/-- limits.rs: checked_stream_size. -/
def checked_stream_size (l : Limits) (rhs : Nat) : Option Nat :=
  match l.stream_size with
  | some m => if rhs > m then some m else none
  | none => none

/-- limits.rs: checked_file_size. -/
def checked_file_size (l : Limits) (rhs : Nat) : Option Nat :=
  match l.file_size with
  | some m => if rhs > m then some m else none
  | none => none

/-- limits.rs: checked_field_size. -/
def checked_field_size (l : Limits) (rhs : Nat) : Option Nat :=
  match l.field_size with
  | some m => if rhs > m then some m else none
  | none => none

/-- limits.rs: checked_field_name_size. -/
def checked_field_name_size (l : Limits) (rhs : Nat) : Option Nat :=
  match l.field_name_size with
  | some m => if rhs > m then some m else none
  | none => none

end Limits

/-! ## utils.rs: parse_content_disposition

A faithful transliteration of the single-pass parameter scanner.  Rust
indexing and slicing panics (out-of-bounds index, inverted range) are
modelled by the distinguished result crash; from_utf8_lossy is the
identity on the byte level. -/

/-- Result of parse_content_disposition: ok carries (name, filename);
err is the InvalidContentDisposition error; crash models a Rust panic
(out-of-bounds index or inverted slice range). -/
inductive CDRes where
  | ok (name : List Byte) (filename : Option (List Byte))
  | err
  | crash
deriving DecidableEq, Repr

/-- The value slice taken when a parameter ends (at a semicolon or at the
end of the header value): strip one pair of surrounding double quotes if
present.  none models the panics of the Rust slice expression (hv[j] when
j is out of bounds, or the inverted range j+1..i-1). -/
def quoteSlice (hv : List Byte) (j i : Nat) : Option (List Byte) :=
  match hv[j]?, hv[i - 1]? with
  | some cj, some ci =>
    if cj = 34 ∧ ci = 34 then
      if j + 1 ≤ i - 1 then some ((hv.take (i - 1)).drop (j + 1)) else none
    else some ((hv.take i).drop j)
  | _, _ => none

/-- Overwrite the value of the last collected parameter (Rust
v.last_mut(); a no-op on the empty vector). -/
def updLast (v : List (List Byte × List Byte)) (val : List Byte) :
    List (List Byte × List Byte) :=
  match v.getLast? with
  | none => v
  | some e => v.dropLast ++ [(e.1, val)]

/-- utils.rs parse_content_disposition, final param inspection: v[1] is
indexed unconditionally (crash when fewer than two entries), v[2] only
behind a length guard. -/
def cdFinalize (v : List (List Byte × List Byte)) : CDRes :=
  match v[1]? with
  | none => .crash
  | some e1 =>
    if e1.1 = ascii "name" ∧ e1.2 ≠ [] then
      .ok e1.2
        (match v[2]? with
         | some e2 => if e2.1 = ascii "filename" then some e2.2 else none
         | none => none)
    else .err

/-- utils.rs parse_content_disposition, the scan loop over hv with cursor
i, token start j, in-parameter flag p and collected parameters v.  The
recursion walks the suffix of hv from position i (todo = hv.drop i), so
the hv[i] access of the Rust loop is the head of todo and i = hv.length
exactly when todo is exhausted. -/
def cdLoop (hv : List Byte) : List Byte → Nat → Nat → Nat →
    List (List Byte × List Byte) → CDRes
  | [], i, j, p, v =>
    if p = 1 then
      match quoteSlice hv j i with
      | none => .crash
      | some s => cdFinalize (updLast v s)
    else cdFinalize v
  | c :: todo, i, j, p, v =>
    if c = 59 then
      if p = 1 then
        match quoteSlice hv j i with
        | none => .crash
        | some s => cdLoop hv todo (i + 1) (i + 1) 0 (updLast v s)
      else cdLoop hv todo (i + 1) (i + 1) p v
    else if c = 32 then
      cdLoop hv todo (i + 1) (if p = 0 then i + 1 else j) p v
    else if c = 61 then
      cdLoop hv todo (i + 1) (i + 1) 1 (v ++ [((hv.take i).drop j, [])])
    else cdLoop hv todo (i + 1) j p v

/-- utils.rs parse_content_disposition. -/
def parse_content_disposition (hv : List Byte) : CDRes :=
  if hv.length < (ascii "form-data; name=\x22s\x22").length then .err
  else if hv.take 9 ≠ ascii "form-data" then .err
  else cdLoop hv (hv.drop 9) 9 9 0 [(hv.take 9, [])]

/-! ## utils.rs: parse_part_headers

Modelled from the spec: the httparse-backed header-block parser is an
external dependency; section 4.3 describes it as parsing the block into
name/value pairs, bounded to a fixed maximum header count (MAX_HEADERS
is 16 in utils.rs), any malformed block being a hard parse error.  Header
names are lowercased as by http::HeaderName; a value has its leading
spaces stripped. -/

/-- ASCII lowercase of a header name. -/
def toLower (l : List Byte) : List Byte :=
  l.map (fun c => if 65 ≤ c ∧ c ≤ 90 then c + 32 else c)

/-- Modelled from the spec: one header line, split at the first colon. -/
def parseHeaderLine (line : List Byte) : Option (List Byte × List Byte) :=
  match findSub [58] line with
  | none => none
  | some i => some (toLower (line.take i), ((line.drop (i + 1)).dropWhile (fun c => c = 32)))

/-- Modelled from the spec: the header block as CRLF-separated lines up
to the empty line; fuel bounds the recursion (a block always has fewer
lines than bytes, so length-plus-one fuel never runs out). -/
def parseHeaderLines : Nat → List Byte → Option (List (List Byte × List Byte))
  | 0, _ => none
  | fuel + 1, l =>
    match findSub CRLF l with
    | none => none
    | some i =>
      if i = 0 then some []
      else
        match parseHeaderLine (l.take i), parseHeaderLines fuel (l.drop (i + 2)) with
        | some h, some hs => some (h :: hs)
        | _, _ => none

/-- Modelled from the spec: utils.rs parse_part_headers (httparse call
replaced by the line parser above, MAX_HEADERS = 16). -/
def parse_part_headers (bytes : List Byte) : Option (List (List Byte × List Byte)) :=
  match parseHeaderLines (bytes.length + 1) bytes with
  | none => none
  | some hs => if hs.length ≤ 16 then some hs else none

/-- http::HeaderMap::remove as used by form.rs: return the value of the
named header (if any) and the map without it. -/
def removeHeader (n : List Byte) (hs : List (List Byte × List Byte)) :
    Option (List Byte) × List (List Byte × List Byte) :=
  ((hs.find? (fun e => e.1 = n)).map (fun e => e.2),
   hs.filter (fun e => ¬ e.1 = n))

/-! ## error.rs -/

/-- error.rs enum Error (the transport variants Stream/BoxError carry no
structure the claims need and are not modelled; TryLockError carries a
message that is irrelevant here). -/
inductive Error where
  | invalidHeader
  | invalidContentDisposition
  | payloadTooLarge (max : Nat)
  | fileTooLarge (max : Nat)
  | fieldTooLarge (max : Nat)
  | partsTooMany (max : Nat)
  | fieldsTooMany (max : Nat)
  | filesTooMany (max : Nat)
  | fieldNameTooLong (max : Nat)
  | tryLockError
deriving DecidableEq, Repr

/-! ## The current State and its decode (spec section 4.2)

form.rs, field.rs and async.rs (all under src) drive a State whose
struct definition and decode method are not in this snapshot of src
(state.rs and state copy 2.rs are older variants with different fields).
The decode state machine is therefore modelled from the spec, section
4.2; the driving loop (async.rs lines 33-97), FormData::poll_next
(form.rs lines 66-150) and Field::poll_next (field.rs lines 159-200) are
transliterations of the files in src. -/

/-- Modelled from the spec (4.2): the parse-phase tag of the scanner:
Delimiting(have_partial_match) - Heading(offset) - Headed - Header -
Next - Eof. -/
inductive DFlag where
  | delimiting (d : Bool)
  | heading (n : Nat)
  | headed
  | header
  | next
  | eof
deriving DecidableEq, Repr

/-- Modelled from the spec (4.1): DELIM = CRLF ++ dashes ++ boundary. -/
def delim (b : List Byte) : List Byte := CR :: LF :: DASH :: DASH :: b

/-- Modelled from the spec (2, 4.2) and the uses in src: the current
State: byte source, end-of-input flag, readability flag of the decode
loop, running ingested-byte total, accumulating buffer (created with the
synthetic CRLF placeholder of spec 4.1), parse-phase tag, boundary,
limits, part/field/file counters and the single-slot waker. -/
structure MState where
  io : List (List Byte)
  eof : Bool
  is_readable : Bool
  length : Nat
  buffer : List Byte
  flag : DFlag
  boundary : List Byte
  limits : Limits
  total : Nat
  fields : Nat
  files : Nat
  waker : Bool
deriving DecidableEq, Repr

/-- The current State::new (boundary, io, limits). -/
def MState.new (b : List Byte) (io : List (List Byte)) (limits : Limits) : MState :=
  { io, eof := false, is_readable := false, length := 0, buffer := CRLF
    flag := .delimiting false, boundary := b, limits
    total := 0, fields := 0, files := 0, waker := false }

/-- Modelled from the spec (4.2, state Header): search for CRLFCRLF;
when found, yield the header block through and including the blank line
and arm Delimiting(true). -/
def decodeHeader (st : MState) : Option (List Byte) × MState :=
  match findSub CRLFCRLF st.buffer with
  | some h =>
    (some (st.buffer.take (h + 4)),
     { st with buffer := st.buffer.drop (h + 4), flag := .delimiting true })
  | none => (none, st)

/-- Modelled from the spec (4.2, state Headed): inspect the two bytes
after the delimiter: CRLF means another part follows, dashes mean end of
stream, anything else is a malformed trailer treated as Eof. -/
def decodeHeaded (st : MState) : Option (List Byte) × MState :=
  if st.buffer.length < 2 then (none, st)
  else if st.buffer.take 2 = CRLF then
    decodeHeader { st with buffer := st.buffer.drop 2, flag := .header }
  else if st.buffer.take 2 = DASHES then (none, { st with flag := .eof })
  else (none, { st with flag := .eof })

/-- Modelled from the spec (4.2, state Heading(n)): for the very first
part discard the n leading bytes and the delimiter; otherwise n = 0 ends
the current part (consume the delimiter, go to Next) and n > 0 yields
the n bytes as the final body chunk of the current part. -/
def decodeHeading (n : Nat) (st : MState) : Option (List Byte) × MState :=
  if st.total = 0 then
    decodeHeaded { st with buffer := st.buffer.drop (n + (delim st.boundary).length)
                           flag := .headed }
  else if n = 0 then
    (none, { st with buffer := st.buffer.drop (delim st.boundary).length, flag := .next })
  else
    (some (st.buffer.take n), { st with buffer := st.buffer.drop n, flag := .heading 0 })

/-- Modelled from the spec (4.2, state Delimiting): search the buffer for
DELIM; when absent, classify: empty stream at end of input, degenerate
empty-body match (delimiter minus the leading CRLF), bounded-memory
flush of a buffer-size chunk while inside a body, or request more
input. -/
def decodeDelimiting (d : Bool) (st : MState) : Option (List Byte) × MState :=
  match findSub (delim st.boundary) st.buffer with
  | some off => decodeHeading off { st with flag := .heading off }
  | none =>
    if st.eof ∧ st.buffer = CRLF then (none, { st with flag := .eof })
    else if (findSub (DASH :: DASH :: st.boundary) st.buffer).isSome then
      (none, { st with flag := .next })
    else if d ∧ st.buffer.length > st.limits.buffer_size + (delim st.boundary).length then
      (some (st.buffer.take st.limits.buffer_size),
       { st with buffer := st.buffer.drop st.limits.buffer_size })
    else (none, st)

/-- Modelled from the spec (4.2): one decode attempt over the current
buffer contents.  Next passes through to Headed; Eof is terminal. -/
def decode (st : MState) : Option (List Byte) × MState :=
  match st.flag with
  | .delimiting d => decodeDelimiting d st
  | .heading n => decodeHeading n st
  | .headed => decodeHeaded st
  | .header => decodeHeader st
  | .next => decodeHeaded { st with flag := .headed }
  | .eof => (none, st)

/-- Result of one poll of the current State stream. -/
inductive MPoll where
  | chunk (c : List Byte)
  | done
  | err (e : Error)
  | stuck
deriving DecidableEq, Repr

/-- One iteration of the async.rs Stream loop for State (lines 33-96):
when readable, attempt a decode (a yield returns; Next ends the field
stream; Eof subtracts the leftover buffer from the running length and
ends the whole stream); otherwise pull a chunk from io, checking the
stream-size limit, detecting end of input on an empty read.  Transport
errors and Poll::Pending from io are not modelled (io chunks are always
ready and Ok). -/
def mstep (st : MState) : Sum MState (MState × MPoll) :=
  let a : Sum MState (MState × MPoll) :=
    if st.is_readable then
      match decode st with
      | (some data, st) => .inr (st, .chunk data)
      | (none, st) =>
        if st.flag = .next then .inr (st, .done)
        else if st.flag = .eof then
          .inr ({ st with length := st.length - st.buffer.length
                          buffer := [], eof := true }, .done)
        else .inl { st with is_readable := false }
    else .inl st
  match a with
  | .inr r => .inr r
  | .inl st =>
    if st.eof then .inl { st with is_readable := true }
    else
      match st.io with
      | [] => .inl { st with eof := true, is_readable := true }
      | c :: rest =>
        match st.limits.checked_stream_size (st.length + c.length) with
        | some max => .inr ({ st with io := rest }, .err (.payloadTooLarge max))
        | none =>
          .inl { st with io := rest, length := st.length + c.length
                         buffer := st.buffer ++ c
                         eof := if c.length = 0 then true else st.eof
                         is_readable := true }

/-- The async.rs Stream loop for State, on fuel. -/
def mloop : Nat → MState → MState × MPoll
  | 0, st => (st, .stuck)
  | fuel + 1, st =>
    match mstep st with
    | .inr r => r
    | .inl st => mloop fuel st

/-- field.rs: the Field descriptor; the shared Arc handle back to the
scanner is modelled by the hasState flag (the scanner itself is threaded
alongside explicitly). -/
structure Field where
  length : Nat
  index : Nat
  name : List Byte
  filename : Option (List Byte)
  content_type : Option (List Byte)
  headers : Option (List (List Byte × List Byte))
  hasState : Bool
deriving DecidableEq, Repr

/-- field.rs Field::consumed: the state handle has been cleared. -/
def Field.consumed (f : Field) : Bool := !f.hasState

/-- Result of one poll of FormData. -/
inductive FormPoll where
  | field (f : Field)
  | done
  | pend
  | err (e : Error)
  | crash
  | stuck
deriving DecidableEq, Repr

/-- form.rs FormData::poll_next (lines 66-150): try_lock is modelled by
the locked argument (a held lock yields the TryLockError); a pending
waker yields Pending; otherwise drive the scanner for a header block and
build the Field, enforcing the parts/fields/files count limits and the
field-name length limit.  A crash of parse_content_disposition
propagates as crash. -/
def formPoll (locked : Bool) (fuel : Nat) (st : MState) : MState × FormPoll :=
  if locked then (st, .err .tryLockError)
  else if st.waker then (st, .pend)
  else
    match mloop fuel st with
    | (st, .stuck) => (st, .stuck)
    | (st, .err e) => (st, .err e)
    | (st, .done) => (st, .done)
    | (st, .chunk buf) =>
      match st.limits.checked_parts (st.total + 1) with
      | some max => (st, .err (.partsTooMany max))
      | none =>
        match parse_part_headers buf with
        | none => (st, .err .invalidHeader)
        | some headers =>
          let r := removeHeader (ascii "content-disposition") headers
          match r.1 with
          | none => (st, .err .invalidContentDisposition)
          | some cdv =>
            match parse_content_disposition cdv with
            | .crash => (st, .crash)
            | .err => (st, .err .invalidContentDisposition)
            | .ok name fname =>
              match st.limits.checked_field_name_size name.length with
              | some max => (st, .err (.fieldNameTooLong max))
              | none =>
                let counted : Sum MState (MState × FormPoll) :=
                  if fname.isSome then
                    match st.limits.checked_files (st.files + 1) with
                    | some max => .inr (st, .err (.filesTooMany max))
                    | none => .inl { st with files := st.files + 1 }
                  else
                    match st.limits.checked_fields (st.fields + 1) with
                    | some max => .inr (st, .err (.fieldsTooMany max))
                    | none => .inl { st with fields := st.fields + 1 }
                match counted with
                | .inr r => r
                | .inl st =>
                  let r2 := removeHeader (ascii "content-type") r.2
                  let f : Field :=
                    { length := 0, index := st.total, name, filename := fname
                      content_type := r2.1
                      headers := if r2.2 = [] then none else some r2.2
                      hasState := true }
                  ({ st with total := st.total + 1, waker := true }, .field f)

/-- Result of one poll of a Field body stream. -/
inductive FieldPoll where
  | chunk (c : List Byte)
  | done
  | err (e : Error)
  | stuck
deriving DecidableEq, Repr

/-- field.rs Field::poll_next (lines 159-200): a cleared handle is an
immediate end of body; a held lock is the TryLockError; otherwise drive
the scanner: end-of-part wakes the stored waker and clears the handle,
a data chunk is checked against the file-size or field-size limit before
the field length is extended. -/
def fieldPoll (locked : Bool) (fuel : Nat) (f : Field) (st : MState) :
    Field × MState × FieldPoll :=
  if !f.hasState then (f, st, .done)
  else if locked then (f, st, .err .tryLockError)
  else
    match mloop fuel st with
    | (st, .stuck) => (f, st, .stuck)
    | (st, .err e) => (f, st, .err e)
    | (st, .done) => ({ f with hasState := false }, { st with waker := false }, .done)
    | (st, .chunk buf) =>
      if f.filename.isSome then
        match st.limits.checked_file_size (f.length + buf.length) with
        | some max => (f, st, .err (.fileTooLarge max))
        | none => ({ f with length := f.length + buf.length }, st, .chunk buf)
      else
        match st.limits.checked_field_size (f.length + buf.length) with
        | some max => (f, st, .err (.fieldTooLarge max))
        | none => ({ f with length := f.length + buf.length }, st, .chunk buf)

/-- form.rs FormData::set_max_buf_size (lines 47-55): try_lock then
assign limits.buffer_size unchecked. -/
def formSetMaxBufSize (locked : Bool) (st : MState) (max : Nat) :
    MState × Option Error :=
  if locked then (st, some .tryLockError)
  else ({ st with limits := { st.limits with buffer_size := max } }, none)

/-! ## A sequential driver for whole-session runs (claim C1)

The driver performs the protocol of the tests and examples in src: poll
FormData for a field, drain that field to exhaustion collecting its body
chunks, repeat until FormData reports end of stream. -/

/-- One decoded field as observed by a driver run. -/
structure RecOut where
  name : List Byte
  filename : Option (List Byte)
  chunks : List (List Byte)
  length : Nat
deriving DecidableEq, Repr

/-- Drain one Field to exhaustion, collecting its body chunks; the Bool
reports clean end of body. -/
def drain : Nat → Field → MState → List (List Byte) →
    Field × MState × List (List Byte) × Bool
  | 0, f, st, acc => (f, st, acc.reverse, false)
  | fuel + 1, f, st, acc =>
    match fieldPoll false 4 f st with
    | (f, st, .done) => (f, st, acc.reverse, true)
    | (f, st, .chunk c) => drain fuel f st (c :: acc)
    | (f, st, _) => (f, st, acc.reverse, false)

/-- Run the whole session: iterate FormData, draining each yielded
field; the Bool reports clean end of stream. -/
def drive : Nat → MState → List RecOut → List RecOut × MState × Bool
  | 0, st, acc => (acc.reverse, st, false)
  | n + 1, st, acc =>
    match formPoll false 4 st with
    | (st, .done) => (acc.reverse, st, true)
    | (st, .field f) =>
      match drain 4 f st [] with
      | (f, st, chunks, true) =>
        drive n st
          ({ name := f.name, filename := f.filename, chunks, length := f.length } :: acc)
      | (_, st, _, false) => (acc.reverse, st, false)
    | (st, _) => (acc.reverse, st, false)

/-! ## Wire encoding of a valid multipart body (claim C1) -/

/-- One part to encode: a field name and a body. -/
structure Part where
  name : List Byte
  body : List Byte
deriving DecidableEq, Repr

/-- The header block line of an encoded part:
content-disposition: form-data; name="NAME". -/
def partHeader (p : Part) : List Byte :=
  ascii "content-disposition" ++
    (58 :: (ascii " form-data; name=" ++ (34 :: (p.name ++ [34]))))

/-- The wire tail after the dashed boundary of the previous delimiter:
the closing dashes-CRLF when no part remains, else CRLF, the header
block, the blank line, the body and the next delimiter. -/
def contEnc (b : List Byte) : List Part → List Byte
  | [] => DASH :: DASH :: CRLF
  | p :: ps =>
    CR :: LF :: (partHeader p ++ (CRLFCRLF ++ (p.body ++ (delim b ++ contEnc b ps))))

/-- The full multipart body for a boundary and a list of parts. -/
def wire (b : List Byte) (ps : List Part) : List Byte :=
  DASH :: DASH :: (b ++ contEnc b ps)

/-- A Limits configuration with every ceiling unset. -/
def noLimits : Limits :=
  { field_name_size := none, field_size := none, fields := none
    file_size := none, files := none, parts := none, stream_size := none
    buffer_size := DEFAULT_BUF_SIZE }

/-- A fresh session over the encoded wire (delivered as one chunk),
with no limits configured. -/
def initSession (b : List Byte) (ps : List Part) : MState :=
  MState.new b [wire b ps] noLimits

/-- A byte allowed in an encoded field name: none of CR, LF, semicolon,
space, equals sign, double quote. -/
def plainNameByte (c : Byte) : Prop :=
  c ≠ CR ∧ c ≠ LF ∧ c ≠ 59 ∧ c ≠ 32 ∧ c ≠ 61 ∧ c ≠ 34

/-- Validity of one encoded part: nonempty name over plain bytes, body
free of CR (so the CRLF-led delimiter cannot occur inside it). -/
def ValidPart (p : Part) : Prop :=
  p.name ≠ [] ∧ (∀ c ∈ p.name, plainNameByte c) ∧ CR ∉ p.body

/-- Validity of an encoded part list. -/
def Valid (ps : List Part) : Prop := ∀ p ∈ ps, ValidPart p

instance (c : Byte) : Decidable (plainNameByte c) := by
  unfold plainNameByte
  infer_instance

instance (p : Part) : Decidable (ValidPart p) := by
  unfold ValidPart
  infer_instance

instance (ps : List Part) : Decidable (Valid ps) := by
  unfold Valid
  infer_instance

/-- The field record a valid session run is expected to produce for one
part: the part body arrives as a single chunk (empty bodies yield no
chunk), and the recorded length is the body length. -/
def expectedRec (p : Part) : RecOut :=
  { name := p.name, filename := none
    chunks := if p.body = [] then [] else [p.body]
    length := p.body.length }

/-- The scanner state between parts: the wire has been consumed up to
(and including) the delimiter that ended the previous part, k parts have
been produced, and the scanner sits in Next. -/
def midState (b : List Byte) (full k : Nat) (rest : List Part) : MState :=
  { io := [], eof := false, is_readable := true, length := full
    buffer := contEnc b rest, flag := .next, boundary := b, limits := noLimits
    total := k, fields := k, files := 0, waker := false }

/-- The Field record FormData builds for the k-th encoded part. -/
def fieldFor (k : Nat) (p : Part) : Field :=
  { length := 0, index := k, name := p.name, filename := none
    content_type := none, headers := none, hasState := true }

/-- The scanner state right after the k-th part's header block was
consumed: the buffer starts at the part body. -/
def bodyState (b : List Byte) (full k : Nat) (p : Part) (rest : List Part) : MState :=
  { io := [], eof := false, is_readable := true, length := full
    buffer := p.body ++ (delim b ++ contEnc b rest), flag := .delimiting true
    boundary := b, limits := noLimits, total := k + 1, fields := k + 1
    files := 0, waker := true }

/-! ## Inputs and observations for the scanner claims -/

/-- The closing boundary line, dashes boundary dashes CRLF (the whole
body of a zero-part stream). -/
def closingWire (b : List Byte) : List Byte :=
  DASH :: DASH :: (b ++ (DASH :: DASH :: CRLF))

/-- A byte list with bare-LF line endings: no CR immediately followed
by LF anywhere. -/
def NoCRLFpair (l : List Byte) : Prop :=
  ∀ j, ¬ (l[j]? = some CR ∧ l[j + 1]? = some LF)

/-- The length of the chunk carried by a poll result (0 otherwise). -/
def pollChunkLen : Legacy.Poll → Nat
  | .yld c => c.length
  | _ => 0

/-- A part body of 8190 letters a followed by the closing delimiter,
preceded by the opening dashes: on the wire, one oversized last part. -/
def c10input : List Byte :=
  DASH :: DASH :: (List.replicate 8190 97 ++ Legacy.delimClose [98])

/-- The same wire shape with a body of n+1 letters a, for symbolic runs. -/
def c10wire (n : Nat) : List Byte :=
  DASH :: DASH :: (List.replicate (n + 1) 97 ++ Legacy.delimClose [98])

/-- A wire consisting of the opening dashes, the boundary, and two
terminator bytes followed by arbitrary residue, for the copy-2 scanner's
two-byte terminal check. -/
def c6wire (b : List Byte) (t1 t2 : Byte) (rest : List Byte) : List Byte :=
  DASH :: DASH :: (b ++ (t1 :: t2 :: rest))

/-- A scanner state inside a part (one part already indexed) whose
buffer holds two bytes of body data followed by a full delimiter. -/
def c10stateA : Legacy.State :=
  { io := [], eof := false, length := 9, cursor := Legacy.Cursor.new [98]
    boundary := [98], index := some 0
    buffer := some (ascii "ab" ++ Legacy.delimOpen [98])
    max_buf_size := DEFAULT_BUF_SIZE }

/-- The state after the scanner yields the two body bytes of c10stateA. -/
def c10stateB : Legacy.State :=
  { io := [], eof := false, length := 9
    cursor := { z := true, flag := .header, x := none, y := none
                crlf_d_b_crlf := Legacy.delimOpen [98]
                crlf_d_b_d_crlf := Legacy.delimClose [98] }
    boundary := [98], index := some 0
    buffer := some (Legacy.delimOpen [98])
    max_buf_size := DEFAULT_BUF_SIZE }

/-! # Lemmas and claim theorems -/

theorem findSub_of_isPrefixOf {pat buf : List Byte} (h : pat <+: buf) :
    findSub pat buf = some 0 := by
  rw [findSub.eq_def, if_pos (List.isPrefixOf_iff_prefix.mpr h)]

theorem findSub_nil {pat : List Byte} (h : pat ≠ []) : findSub pat [] = none := by
  rw [findSub.eq_def,
    if_neg (fun hp => h (List.prefix_nil.mp (List.isPrefixOf_iff_prefix.mp hp)))]

theorem findSub_cons_of_not {pat : List Byte} {a : Byte} {t : List Byte}
    (h : ¬ pat <+: a :: t) :
    findSub pat (a :: t) = (findSub pat t).map (· + 1) := by
  rw [findSub.eq_def, if_neg (fun hp => h (List.isPrefixOf_iff_prefix.mp hp))]

/-- If no position of buf carries an occurrence of pat, findSub is none. -/
theorem findSub_eq_none {pat buf : List Byte}
    (h : ∀ i, ¬ pat <+: buf.drop i) : findSub pat buf = none := by
  induction buf with
  | nil =>
    have hne : pat ≠ [] := fun e => h 0 (by simp [e])
    exact findSub_nil hne
  | cons a t ih =>
    rw [findSub_cons_of_not (by simpa using h 0)]
    rw [ih (fun i => by simpa using h (i + 1))]
    rfl

/-- A pattern with head h has no occurrence in a list avoiding h. -/
theorem findSub_eq_none_of_head_notMem {h : Byte} {p m : List Byte}
    (hm : h ∉ m) : findSub (h :: p) m = none := by
  induction m with
  | nil => exact findSub_nil (by simp)
  | cons a t ih =>
    have hne : a ≠ h := fun e => hm (by simp [e])
    rw [findSub_cons_of_not, ih (fun e => hm (List.mem_cons_of_mem _ e))]
    · rfl
    · intro hp
      rcases (List.cons_prefix_cons.mp hp) with ⟨h1, -⟩
      exact hne h1.symm

/-- Decomposition: searching a pattern with head h in A ++ B when A avoids h
finds the first occurrence inside B, shifted by the length of A. -/
theorem findSub_append_of_head_notMem {h : Byte} {p A B : List Byte}
    (hA : h ∉ A) :
    findSub (h :: p) (A ++ B) = (findSub (h :: p) B).map (· + A.length) := by
  induction A with
  | nil => simp
  | cons a t ih =>
    have hne : a ≠ h := fun e => hA (by simp [e])
    have ht : h ∉ t := fun e => hA (List.mem_cons_of_mem _ e)
    rw [List.cons_append,
      findSub_cons_of_not (fun hp => hne (List.cons_prefix_cons.mp hp).1.symm),
      ih ht]
    cases findSub (h :: p) B with
    | none => rfl
    | some v =>
      show some (v + t.length + 1) = some (v + (a :: t).length)
      simp only [Option.some.injEq, List.length_cons]
      omega

/-- First occurrence right after an avoiding preamble. -/
theorem findSub_append_here {h : Byte} {p A B : List Byte}
    (hA : h ∉ A) (hB : h :: p <+: B) :
    findSub (h :: p) (A ++ B) = some A.length := by
  rw [findSub_append_of_head_notMem hA, findSub_of_isPrefixOf hB]
  simp

/-! ## C3: a consumed Field is idempotently at end of body -/

/-- C3: after a Field's body stream has been fully drained (its Scanner
handle cleared, consumed() true), every further poll of the body stream
immediately returns end-of-body, and neither the Field's length nor any
session state changes. -/
theorem c3_consumed_field_poll_idempotent (lk : Bool) (fuel : Nat)
    (f : Field) (st : MState) (h : f.consumed = true) :
    fieldPoll lk fuel f st = (f, st, .done) := by
  have hs : f.hasState = false := by
    simpa [Field.consumed] using h
  simp [fieldPoll, hs]

/-- C3 witness: a concrete consumed field over a fresh session. -/
theorem c3_witness :
    (Field.consumed
      { length := 3, index := 0, name := ascii "a", filename := none
        content_type := none, headers := none, hasState := false } = true) ∧
    fieldPoll false 4
      { length := 3, index := 0, name := ascii "a", filename := none
        content_type := none, headers := none, hasState := false }
      (MState.new (ascii "b") [] Limits.default) =
      ({ length := 3, index := 0, name := ascii "a", filename := none
         content_type := none, headers := none, hasState := false },
       MState.new (ascii "b") [] Limits.default, .done) :=
  ⟨by decide, c3_consumed_field_poll_idempotent false 4 _ _ (by decide)⟩

/-! ## C9: try-lock contention is an explicit error -/

/-- C9: when the shared Scanner lock is already held (try_lock fails),
both a FormData poll and a live Field poll return the TryLockError
immediately, leaving the scanner state (and the field) unchanged, rather
than blocking or mutating shared state. -/
theorem c9_trylock_contention_error (fuel : Nat) (st : MState) (f : Field)
    (hf : f.hasState = true) :
    formPoll true fuel st = (st, .err .tryLockError) ∧
    fieldPoll true fuel f st = (f, st, .err .tryLockError) := by
  constructor
  · simp [formPoll]
  · simp [fieldPoll, hf]

/-- C9 witness: a concrete live field over a fresh session. -/
theorem c9_witness :
    formPoll true 4 (MState.new (ascii "b") [] Limits.default) =
      (MState.new (ascii "b") [] Limits.default, .err .tryLockError) ∧
    fieldPoll true 4
      { length := 0, index := 0, name := ascii "a", filename := none
        content_type := none, headers := none, hasState := true }
      (MState.new (ascii "b") [] Limits.default) =
      ({ length := 0, index := 0, name := ascii "a", filename := none
         content_type := none, headers := none, hasState := true },
       MState.new (ascii "b") [] Limits.default, .err .tryLockError) :=
  c9_trylock_contention_error 4 _ _ (by decide)

/-! ## C2: per-chunk size limits on field bodies -/

/-- C2: when the scanner hands the Field a body chunk whose length added
to the accumulated field length exceeds the configured file_size limit
(for a field with a filename) or field_size limit (otherwise), the poll
returns the FileTooLarge (resp. FieldTooLarge) error carrying the
configured limit, before the chunk is accepted: the returned Field still
has its old length. -/
theorem c2_field_size_limits (g : Nat) (f : Field) (st st2 : MState)
    (c : List Byte) (hf : f.hasState = true)
    (hm : mloop g st = (st2, .chunk c)) :
    (∀ m, f.filename.isSome → st2.limits.file_size = some m →
      f.length + c.length > m →
      fieldPoll false g f st = (f, st2, .err (.fileTooLarge m))) ∧
    (∀ m, f.filename = none → st2.limits.field_size = some m →
      f.length + c.length > m →
      fieldPoll false g f st = (f, st2, .err (.fieldTooLarge m))) := by
  constructor
  · intro m hfile hlim hgt
    simp [fieldPoll, hf, hm, hfile, Limits.checked_file_size, hlim, hgt]
  · intro m hfile hlim hgt
    simp [fieldPoll, hf, hm, hfile, Limits.checked_field_size, hlim, hgt]

/-- C2 witness: a session state about to yield the 3-byte chunk abc with
file_size and field_size limits of 2: a file field and a plain field both
get the too-large error with the limit value, and keep length 0. -/
theorem c2_witness :
    fieldPoll false 1
      { length := 0, index := 0, name := ascii "n", filename := some (ascii "f")
        content_type := none, headers := none, hasState := true }
      { io := [], eof := false, is_readable := true, length := 9
        buffer := ascii "abc" ++ delim (ascii "B") ++ [45, 45, 13, 10]
        flag := .heading 3, boundary := ascii "B"
        limits := { Limits.default with file_size := some 2, field_size := some 2 }
        total := 1, fields := 1, files := 0, waker := true } =
      ({ length := 0, index := 0, name := ascii "n", filename := some (ascii "f")
         content_type := none, headers := none, hasState := true },
       (mloop 1
        { io := [], eof := false, is_readable := true, length := 9
          buffer := ascii "abc" ++ delim (ascii "B") ++ [45, 45, 13, 10]
          flag := .heading 3, boundary := ascii "B"
          limits := { Limits.default with file_size := some 2, field_size := some 2 }
          total := 1, fields := 1, files := 0, waker := true }).1,
       .err (.fileTooLarge 2)) ∧
    fieldPoll false 1
      { length := 0, index := 0, name := ascii "n", filename := none
        content_type := none, headers := none, hasState := true }
      { io := [], eof := false, is_readable := true, length := 9
        buffer := ascii "abc" ++ delim (ascii "B") ++ [45, 45, 13, 10]
        flag := .heading 3, boundary := ascii "B"
        limits := { Limits.default with file_size := some 2, field_size := some 2 }
        total := 1, fields := 1, files := 0, waker := true } =
      ({ length := 0, index := 0, name := ascii "n", filename := none
         content_type := none, headers := none, hasState := true },
       (mloop 1
        { io := [], eof := false, is_readable := true, length := 9
          buffer := ascii "abc" ++ delim (ascii "B") ++ [45, 45, 13, 10]
          flag := .heading 3, boundary := ascii "B"
          limits := { Limits.default with file_size := some 2, field_size := some 2 }
          total := 1, fields := 1, files := 0, waker := true }).1,
       .err (.fieldTooLarge 2)) :=
  ⟨(c2_field_size_limits 1 _ _ _ (ascii "abc") (by decide) (by decide)).1 2
      (by decide) (by decide) (by decide),
   (c2_field_size_limits 1 _ _ _ (ascii "abc") (by decide) (by decide)).2 2
      (by decide) (by decide) (by decide)⟩

/-! ## C8: the buffer-size minimum -/

/-- C8 counterexample: FormData::set_max_buf_size accepts 1, far below
DEFAULT_BUFFER_SIZE (8 KiB), and stores it in limits.buffer_size, so it
is not the case that every operation setting the buffer size rejects a
value below the minimum. -/
theorem c8_counterexample :
    (formSetMaxBufSize false (MState.new (ascii "b") [] Limits.default) 1).2 = none ∧
    (formSetMaxBufSize false
      (MState.new (ascii "b") [] Limits.default) 1).1.limits.buffer_size = 1 ∧
    1 < DEFAULT_BUF_SIZE := by
  decide

/-- C8 (amended): the Limits::buffer_size builder and the legacy
State::set_max_buf_size panic on any value below DEFAULT_BUFFER_SIZE
(8 KiB), but FormData::set_max_buf_size stores the value unchecked, so
the configured buffer size can be lowered below the minimum through the
FormData surface. -/
theorem c8_buffer_size_minimum (l : Limits) (st : Legacy.State) (st2 : MState)
    (max : Nat) (h : max < DEFAULT_BUF_SIZE) :
    Limits.buffer_size_builder l max = none ∧
    Legacy.State.set_max_buf_size st max = none ∧
    (formSetMaxBufSize false st2 max).2 = none ∧
    (formSetMaxBufSize false st2 max).1.limits.buffer_size = max := by
  refine ⟨?_, ?_, ?_, ?_⟩
  · simp [Limits.buffer_size_builder]
    omega
  · simp [Legacy.State.set_max_buf_size]
    omega
  · simp [formSetMaxBufSize]
  · simp [formSetMaxBufSize]

/-- C8 witness: the minimum enforcement pattern at the concrete value 1. -/
theorem c8_witness :
    1 < DEFAULT_BUF_SIZE ∧
    (Limits.buffer_size_builder Limits.default 1 = none ∧
     Legacy.State.set_max_buf_size (Legacy.State.new (ascii "b") []) 1 = none ∧
     (formSetMaxBufSize false (MState.new (ascii "c") [] Limits.default) 1).2 = none ∧
     (formSetMaxBufSize false
       (MState.new (ascii "c") [] Limits.default) 1).1.limits.buffer_size = 1) :=
  ⟨by decide, c8_buffer_size_minimum _ _ _ 1 (by decide)⟩

/-! ## C4: parse_content_disposition panics instead of erroring -/

/-- C4 (code bug evidence): a Content-Disposition value that starts with
form-data, is long enough, but contains no equals sign (so no parameter
is ever collected) makes parse_content_disposition index v[1] on a
one-element vector: a Rust панic-free claim fails, the parse crashes
instead of returning InvalidContentDisposition, and a FormData poll over
a part with that header crashes rather than erroring. -/
theorem c4_paramless_disposition_crashes :
    parse_content_disposition (ascii "form-data; name bob") = .crash ∧
    (formPoll false 2
      { io := [], eof := false, is_readable := true, length := 49
        buffer := ascii "content-disposition: form-data; name bob" ++ CRLFCRLF
        flag := .header, boundary := ascii "B", limits := Limits.default
        total := 0, fields := 0, files := 0, waker := false }).2 = .crash := by
  constructor
  · decide
  · decide

/-! ## C5: the zero-part (closing boundary only) stream -/

/-- The scanner pattern CRLF dashes boundary CRLF never occurs inside
CRLF dashes boundary dashes CRLF, whatever the boundary. -/
theorem delimOpen_not_in_delimClose (b : List Byte) :
    findSub (Legacy.delimOpen b) (Legacy.delimClose b) = none := by
  apply findSub_eq_none
  intro i
  rcases i with _ | _ | _ | _ | i
  · intro h
    simp only [Legacy.delimOpen, Legacy.delimClose, List.drop_zero,
      List.cons_prefix_cons, true_and] at h
    rw [List.prefix_append_right_inj] at h
    rcases List.cons_prefix_cons.mp h with ⟨h1, -⟩
    simp [CR, DASH] at h1
  · intro h
    simp only [Legacy.delimOpen, Legacy.delimClose, List.drop_succ_cons,
      List.drop_zero, List.cons_prefix_cons] at h
    rcases h with ⟨h1, -⟩
    simp [CR, LF] at h1
  · intro h
    simp only [Legacy.delimOpen, Legacy.delimClose, List.drop_succ_cons,
      List.drop_zero, List.cons_prefix_cons] at h
    rcases h with ⟨h1, -⟩
    simp [CR, DASH] at h1
  · intro h
    simp only [Legacy.delimOpen, Legacy.delimClose, List.drop_succ_cons,
      List.drop_zero, List.cons_prefix_cons] at h
    rcases h with ⟨h1, -⟩
    simp [CR, DASH] at h1
  · intro h
    have hle := h.length_le
    simp only [Legacy.delimOpen, Legacy.delimClose, List.length_drop,
      List.length_cons, List.length_append, CRLF, List.length_nil] at hle
    omega

set_option maxHeartbeats 4000000 in
/-- C5 counterexample: with boundary b, the stream consisting of only the
closing boundary line (7 bytes) decodes to zero parts and end of stream,
but the session's reported length is 7, the full input length, not 0. -/
theorem c5_counterexample :
    (Legacy.pollNext 2 (Legacy.State.new [98] [closingWire [98]])).2 = .done ∧
    (Legacy.pollNext 2 (Legacy.State.new [98] [closingWire [98]])).1.index = none ∧
    (Legacy.pollNext 2 (Legacy.State.new [98] [closingWire [98]])).1.eof = true ∧
    (Legacy.pollNext 2 (Legacy.State.new [98] [closingWire [98]])).1.length = 7 ∧
    (7 : Nat) ≠ 0 := by
  refine ⟨by decide, by decide, by decide, by decide, by decide⟩

/-- NoCRLFpair follows from its restriction to in-range indices. -/
theorem noCRLFpair_of_bounded {l : List Byte}
    (h : ∀ j < l.length, ¬ (l[j]? = some CR ∧ l[j + 1]? = some LF)) :
    NoCRLFpair l := by
  intro j hj
  exact h j (List.getElem?_eq_some.mp hj.1).1 hj

/-- A prefix agrees with the longer list at every index it covers. -/
theorem getElem?_of_listPrefix {p l : List Byte} {i : Nat} {a : Byte}
    (hp : p <+: l) (h : p[i]? = some a) : l[i]? = some a := by
  rcases hp with ⟨t, rfl⟩
  rw [List.getElem?_append_left (List.getElem?_eq_some.mp h).1]
  exact h

/-- A CRLF-led pattern whose tail q contains another CRLF pair never
occurs in the placeholder-plus-input buffer when the input has bare-LF
line endings. -/
theorem findSub_pat_pair_none {q input : List Byte} {k : Nat}
    (hq1 : q[k]? = some CR) (hq2 : q[k + 1]? = some LF)
    (hin : NoCRLFpair input) :
    findSub (CR :: LF :: q) (CR :: LF :: input) = none := by
  apply findSub_eq_none
  intro i
  rcases i with _ | _ | i
  · intro h
    rw [List.drop_zero] at h
    rcases List.cons_prefix_cons.mp h with ⟨-, h⟩
    rcases List.cons_prefix_cons.mp h with ⟨-, h⟩
    exact hin k ⟨getElem?_of_listPrefix h hq1, getElem?_of_listPrefix h hq2⟩
  · intro h
    rw [List.drop_succ_cons, List.drop_zero] at h
    rcases List.cons_prefix_cons.mp h with ⟨h1, -⟩
    simp [CR, LF] at h1
  · intro h
    rw [List.drop_succ_cons, List.drop_succ_cons] at h
    rcases h with ⟨t, ht⟩
    have h1 : (input.drop i)[0]? = some CR := by rw [← ht]; rfl
    have h2 : (input.drop i)[1]? = some LF := by rw [← ht]; simp
    rw [List.getElem?_drop] at h1 h2
    exact hin i ⟨by simpa using h1, by simpa using h2⟩

/-- In a bare-LF input, a CRLF-led pattern can occur in the
placeholder-plus-input buffer only at position 0. -/
theorem findSub_crlfpat_cases (q input : List Byte) (hin : NoCRLFpair input) :
    findSub (CR :: LF :: q) (CR :: LF :: input) = some 0 ∨
    findSub (CR :: LF :: q) (CR :: LF :: input) = none := by
  by_cases hp : (CR :: LF :: q) <+: (CR :: LF :: input)
  · exact Or.inl (findSub_of_isPrefixOf hp)
  · right
    apply findSub_eq_none
    intro i
    rcases i with _ | _ | i
    · simpa using hp
    · intro h
      rw [List.drop_succ_cons, List.drop_zero] at h
      rcases List.cons_prefix_cons.mp h with ⟨h1, -⟩
      simp [CR, LF] at h1
    · intro h
      rw [List.drop_succ_cons, List.drop_succ_cons] at h
      rcases h with ⟨t, ht⟩
      have h1 : (input.drop i)[0]? = some CR := by rw [← ht]; rfl
      have h2 : (input.drop i)[1]? = some LF := by rw [← ht]; simp
      rw [List.getElem?_drop] at h1 h2
      exact hin i ⟨by simpa using h1, by simpa using h2⟩

/-- C7: a stream with bare-LF line endings (no CRLF pair anywhere on the
wire) never produces a part: the very first poll of the scanner runs to
end of stream, no Field header is ever yielded, and no part is indexed. -/
theorem c7_bare_lf_stream (b input : List Byte) (hin : NoCRLFpair input) :
    (Legacy.pollNext 3 (Legacy.State.new b [input])).2 = .done ∧
    (Legacy.pollNext 3 (Legacy.State.new b [input])).1.index = none ∧
    (Legacy.pollNext 3 (Legacy.State.new b [input])).1.eof = true := by
  have e1 : findSub CRLFDD CRLF = none := by decide
  have hq1 : (DASH :: DASH :: (b ++ CRLF))[b.length + 2]? = some CR := by
    have : (b ++ CRLF)[b.length]? = some CR := by
      rw [List.getElem?_append_right (Nat.le_refl _)]
      simp [CRLF]
    simpa [List.getElem?_cons_succ] using this
  have hq2 : (DASH :: DASH :: (b ++ CRLF))[b.length + 3]? = some LF := by
    have : (b ++ CRLF)[b.length + 1]? = some LF := by
      rw [List.getElem?_append_right (Nat.le_succ_of_le (Nat.le_refl _))]
      simp [CRLF]
    simpa [List.getElem?_cons_succ] using this
  have hr1 : (DASH :: DASH :: (b ++ (DASH :: DASH :: CRLF)))[b.length + 4]? = some CR := by
    have : (b ++ (DASH :: DASH :: CRLF))[b.length + 2]? = some CR := by
      rw [List.getElem?_append_right (by omega)]
      have : b.length + 2 - b.length = 2 := by omega
      rw [this]
      rfl
    simpa [List.getElem?_cons_succ] using this
  have hr2 : (DASH :: DASH :: (b ++ (DASH :: DASH :: CRLF)))[b.length + 5]? = some LF := by
    have : (b ++ (DASH :: DASH :: CRLF))[b.length + 3]? = some LF := by
      rw [List.getElem?_append_right (by omega)]
      have : b.length + 3 - b.length = 3 := by omega
      rw [this]
      rfl
    simpa [List.getElem?_cons_succ] using this
  have eOpen : findSub (Legacy.delimOpen b) (CR :: LF :: input) = none :=
    findSub_pat_pair_none hq1 hq2 hin
  have eClose : findSub (Legacy.delimClose b) (CR :: LF :: input) = none :=
    findSub_pat_pair_none hr1 hr2 hin
  have hbuf : CRLF ++ input = CR :: LF :: input := rfl
  have hx : findSub CRLFDD (CR :: LF :: input) = some 0 ∨
      findSub CRLFDD (CR :: LF :: input) = none :=
    findSub_crlfpat_cases [DASH, DASH] input hin
  rcases hx with hx | hx <;>
    refine ⟨?_, ?_, ?_⟩ <;>
      simp [Legacy.pollNext, Legacy.runLoop, Legacy.step, Legacy.bodyPhase,
        Legacy.bodyYPhase, Legacy.bodyYSome, Legacy.bodyTail, Legacy.headerPhase,
        Legacy.ioPhase, Legacy.State.new, Legacy.Cursor.new, Legacy.State.buf,
        e1, eOpen, eClose, hbuf, hx]

/-- C7 witness: the concrete bare-LF body hello LF world LF with
boundary b. -/
theorem c7_witness :
    NoCRLFpair (ascii "hello\nworld\n") ∧
    ((Legacy.pollNext 3 (Legacy.State.new [98] [ascii "hello\nworld\n"])).2 = .done ∧
     (Legacy.pollNext 3 (Legacy.State.new [98] [ascii "hello\nworld\n"])).1.index = none ∧
     (Legacy.pollNext 3 (Legacy.State.new [98] [ascii "hello\nworld\n"])).1.eof = true) := by
  have hn : NoCRLFpair (ascii "hello\nworld\n") := by
    apply noCRLFpair_of_bounded
    decide
  exact ⟨hn, c7_bare_lf_stream [98] (ascii "hello\nworld\n") hn⟩

/-- The keep-consuming half of the body block (lines 283-318): its
yieldBody returns (the x branch) are bounded by max_buf_size. -/
theorem bodyTail_yieldBody_bound {st : Legacy.State} {xv : Nat}
    {c : List Byte} {st2 : Legacy.State}
    (h : Legacy.bodyTail st xv = .inr (.yieldBody c st2)) :
    c.length ≤ st.max_buf_size := by
  unfold Legacy.bodyTail at h
  split_ifs at h with h1 h2 h3
  · obtain ⟨hc, hst⟩ := Legacy.StepRes.yieldBody.inj (Sum.inr.inj h)
    subst hc
    exact le_of_lt (lt_of_le_of_lt (List.length_take_le _ _) h3)
  · obtain ⟨hc, hst⟩ := Legacy.StepRes.yieldBody.inj (Sum.inr.inj h)
    subst hc
    exact List.length_take_le _ _
  · split at h
    · split_ifs at h <;> simp at h
    · simp at h

/-- The found-new-part block (lines 252-281): its yieldBody return is
bounded by max_buf_size. -/
theorem bodyYSome_yieldBody_bound {st : Legacy.State} {xv y0 : Nat}
    {c : List Byte} {st2 : Legacy.State}
    (h : Legacy.bodyYSome st xv y0 = .inr (.yieldBody c st2)) :
    c.length ≤ st.max_buf_size := by
  by_cases hlt : y0 < st.max_buf_size
  · simp only [Legacy.bodyYSome, hlt, if_true] at h
    split_ifs at h with hidx hy0
    · simp at h
    · obtain ⟨hc, hst⟩ := Legacy.StepRes.yieldBody.inj (Sum.inr.inj h)
      subst hc
      exact le_of_lt (lt_of_le_of_lt (List.length_take_le _ _) hlt)
    · simpa using bodyTail_yieldBody_bound h
  · simp only [Legacy.bodyYSome, hlt, if_false] at h
    split_ifs at h with hidx hy0
    · simp at h
    · obtain ⟨hc, hst⟩ := Legacy.StepRes.yieldBody.inj (Sum.inr.inj h)
      subst hc
      exact List.length_take_le _ _
    · simpa using bodyTail_yieldBody_bound h

/-- The y dispatch (lines 247-318): yieldBody returns are bounded. -/
theorem bodyYPhase_yieldBody_bound {st : Legacy.State} {xv : Nat}
    {c : List Byte} {st2 : Legacy.State}
    (h : Legacy.bodyYPhase st xv = .inr (.yieldBody c st2)) :
    c.length ≤ st.max_buf_size := by
  by_cases hy : st.cursor.y = none
  · rcases hfs : findSub st.cursor.crlf_d_b_crlf st.buf with _ | y0
    · simp only [Legacy.bodyYPhase, hy, if_true, hfs] at h
      simpa using bodyTail_yieldBody_bound h
    · simp only [Legacy.bodyYPhase, hy, if_true, hfs] at h
      simpa using bodyYSome_yieldBody_bound h
  · rcases hv : st.cursor.y with _ | y0
    · exact absurd hv hy
    · simp [Legacy.bodyYPhase, hv] at h
      simpa using bodyYSome_yieldBody_bound h

/-- The whole Flag::Body block (lines 232-324): yieldBody returns are
bounded (the flush branch yields exactly max_buf_size bytes when the
buffer has outgrown the limit). -/
theorem bodyPhase_yieldBody_bound {st : Legacy.State}
    {c : List Byte} {st2 : Legacy.State}
    (h : Legacy.bodyPhase st = .inr (.yieldBody c st2)) :
    c.length ≤ st.max_buf_size := by
  by_cases hfl : st.cursor.flag = .body
  · by_cases hx : st.cursor.x = none
    · rcases hfs : findSub CRLFDD st.buf with _ | x0
      · simp [Legacy.bodyPhase, hfl, hx, hfs] at h
        split_ifs at h with hbig
        obtain ⟨hc, hst⟩ := Legacy.StepRes.yieldBody.inj (Sum.inr.inj h)
        subst hc
        exact List.length_take_le _ _
      · simp [Legacy.bodyPhase, hfl, hx, hfs] at h
        split_ifs at h with hadv
        · simpa using bodyYPhase_yieldBody_bound h
        · simpa using bodyYPhase_yieldBody_bound h
    · rcases hv : st.cursor.x with _ | x0
      · exact absurd hv hx
      · simp [Legacy.bodyPhase, hfl, hx, hv] at h
        split_ifs at h with hadv
        · simpa using bodyYPhase_yieldBody_bound h
        · simpa using bodyYPhase_yieldBody_bound h
  · simp [Legacy.bodyPhase, hfl] at h

/-- The Flag::Header block never yields a body chunk. -/
theorem headerPhase_no_yieldBody (st : Legacy.State) (c : List Byte)
    (st2 : Legacy.State) :
    Legacy.headerPhase st ≠ .inr (.yieldBody c st2) := by
  intro h
  unfold Legacy.headerPhase at h
  split_ifs at h <;> try simp at h
  all_goals (split at h <;> simp at h)

/-- The io pull never yields a chunk (it only continues the loop). -/
theorem ioPhase_no_yieldBody (st : Legacy.State) (c : List Byte)
    (st2 : Legacy.State) : Legacy.ioPhase st ≠ .yieldBody c st2 := by
  intro h
  unfold Legacy.ioPhase at h
  split at h <;> simp at h

/-- C10 (amended): every body-data chunk the old scanner yields through
the ordinary body branches (the yieldBody returns: new-part trailing
data, keep-consuming data of the current part, and the oversized-buffer
flush) has length at most max_buf_size.  The final chunk of the last
part (the closing-delimiter branch, tagged yieldLast) is exempt and can
exceed the bound, as the counterexample shows. -/
theorem c10_body_chunks_bounded (st : Legacy.State) (c : List Byte)
    (st2 : Legacy.State) (h : Legacy.step st = .yieldBody c st2) :
    c.length ≤ st.max_buf_size := by
  unfold Legacy.step at h
  cases hb : Legacy.bodyPhase st with
  | inr r =>
    rw [hb] at h
    try simp only [] at h
    subst h
    exact bodyPhase_yieldBody_bound hb
  | inl stA =>
    rw [hb] at h
    try simp only [] at h
    cases hh : Legacy.headerPhase stA with
    | inr r =>
      rw [hh] at h
      try simp only [] at h
      subst h
      exact absurd hh (headerPhase_no_yieldBody stA c st2)
    | inl stB =>
      rw [hh] at h
      try simp only [] at h
      split_ifs at h
      exact absurd h (ioPhase_no_yieldBody stB c st2)

/-- C10 witness: a state with two body bytes before the delimiter yields
the two bytes, within the 8 KiB bound. -/
theorem c10_witness :
    Legacy.step c10stateA = .yieldBody (ascii "ab") c10stateB ∧
    (ascii "ab").length ≤ c10stateA.max_buf_size :=
  ⟨by decide, c10_body_chunks_bounded c10stateA (ascii "ab") c10stateB (by decide)⟩

/-- A single part whose body is n+1 letters: the closing-delimiter branch
("last data of last part") yields the body, the opening dashes and the
placeholder CRLF as one chunk of n+5 bytes in a single poll. -/
theorem c10run (n : Nat) :
    pollChunkLen (Legacy.pollNext 2 (Legacy.State.new [98] [c10wire n])).2 = n + 5 := by
  have hrep : List.replicate (n + 1) (97 : Byte) = 97 :: List.replicate n 97 := rfl
  have hbuf : CRLF ++ c10wire n =
      CR :: LF :: DASH :: DASH ::
        (List.replicate (n + 1) (97 : Byte) ++ Legacy.delimClose [98]) := rfl
  have hnpo : ¬ (Legacy.delimOpen [98] <+:
      CR :: LF :: DASH :: DASH ::
        (List.replicate (n + 1) (97 : Byte) ++ Legacy.delimClose [98])) := by
    intro hp
    obtain ⟨-, hp⟩ := List.cons_prefix_cons.mp hp
    obtain ⟨-, hp⟩ := List.cons_prefix_cons.mp hp
    obtain ⟨-, hp⟩ := List.cons_prefix_cons.mp hp
    obtain ⟨-, hp⟩ := List.cons_prefix_cons.mp hp
    rw [hrep] at hp
    obtain ⟨h98, -⟩ := List.cons_prefix_cons.mp hp
    exact absurd h98 (by decide)
  have hnpc : ¬ (Legacy.delimClose [98] <+:
      CR :: LF :: DASH :: DASH ::
        (List.replicate (n + 1) (97 : Byte) ++ Legacy.delimClose [98])) := by
    intro hp
    obtain ⟨-, hp⟩ := List.cons_prefix_cons.mp hp
    obtain ⟨-, hp⟩ := List.cons_prefix_cons.mp hp
    obtain ⟨-, hp⟩ := List.cons_prefix_cons.mp hp
    obtain ⟨-, hp⟩ := List.cons_prefix_cons.mp hp
    rw [hrep] at hp
    obtain ⟨h98, -⟩ := List.cons_prefix_cons.mp hp
    exact absurd h98 (by decide)
  have hlfo : ¬ (Legacy.delimOpen [98] <+:
      LF :: DASH :: DASH ::
        (List.replicate (n + 1) (97 : Byte) ++ Legacy.delimClose [98])) := by
    intro hp
    obtain ⟨h, -⟩ := List.cons_prefix_cons.mp hp
    exact absurd h (by decide)
  have hlfc : ¬ (Legacy.delimClose [98] <+:
      LF :: DASH :: DASH ::
        (List.replicate (n + 1) (97 : Byte) ++ Legacy.delimClose [98])) := by
    intro hp
    obtain ⟨h, -⟩ := List.cons_prefix_cons.mp hp
    exact absurd h (by decide)
  have hcr : CR ∉ DASH :: DASH :: List.replicate (n + 1) (97 : Byte) := by
    intro hc
    rcases List.mem_cons.mp hc with h | hc
    · exact absurd h (by decide)
    rcases List.mem_cons.mp hc with h | hc
    · exact absurd h (by decide)
    · exact absurd (List.eq_of_mem_replicate hc) (by decide)
  have hsplit : (DASH :: DASH ::
      (List.replicate (n + 1) (97 : Byte) ++ Legacy.delimClose [98])) =
      (DASH :: DASH :: List.replicate (n + 1) (97 : Byte)) ++ Legacy.delimClose [98] := rfl
  have e1 : findSub CRLFDD CRLF = none := by decide
  have f1 : findSub CRLFDD (CRLF ++ c10wire n) = some 0 :=
    findSub_of_isPrefixOf
      ⟨List.replicate (n + 1) (97 : Byte) ++ Legacy.delimClose [98], rfl⟩
  have fnone : findSub (Legacy.delimOpen [98])
      ((DASH :: DASH :: List.replicate (n + 1) (97 : Byte)) ++ Legacy.delimClose [98]) =
      (findSub (Legacy.delimOpen [98]) (Legacy.delimClose [98])).map
        (· + (DASH :: DASH :: List.replicate (n + 1) (97 : Byte)).length) :=
    findSub_append_of_head_notMem hcr
  have f2 : findSub (Legacy.delimOpen [98]) (CRLF ++ c10wire n) = none := by
    rw [hbuf, findSub_cons_of_not hnpo, findSub_cons_of_not hlfo, hsplit, fnone,
      delimOpen_not_in_delimClose]
    rfl
  have fhere : findSub (Legacy.delimClose [98])
      ((DASH :: DASH :: List.replicate (n + 1) (97 : Byte)) ++ Legacy.delimClose [98]) =
      some (DASH :: DASH :: List.replicate (n + 1) (97 : Byte)).length :=
    findSub_append_here hcr (List.prefix_refl _)
  have f3 : findSub (Legacy.delimClose [98]) (CRLF ++ c10wire n) = some (n + 5) := by
    rw [hbuf, findSub_cons_of_not hnpc, findSub_cons_of_not hlfc, hsplit, fhere]
    simp only [Option.map_some', List.length_cons, List.length_replicate,
      Option.some.injEq]
  have hlen : (CRLF ++ c10wire n).length = n + 14 := by
    simp only [CRLF, c10wire, Legacy.delimClose, List.length_append,
      List.length_cons, List.length_replicate, List.length_nil]
    omega
  have hne : ¬ (n + 5 = 0) := by omega
  have hmin : min (n + 5) (n + 14) = n + 5 := by omega
  simp [Legacy.pollNext, Legacy.runLoop, Legacy.step, Legacy.bodyPhase,
    Legacy.bodyYPhase, Legacy.bodyYSome, Legacy.bodyTail, Legacy.headerPhase,
    Legacy.ioPhase, Legacy.State.new, Legacy.Cursor.new, Legacy.State.buf,
    e1, f1, f2, f3, pollChunkLen, List.length_take, hlen, hne, hmin]

/-- C10 counterexample: on a single part whose body is 8190 bytes, the
closing-delimiter branch ("last data of last part") of the old scanner
yields one chunk of 8194 bytes in a single poll, exceeding the 8192-byte
max_buf_size; the 8 KiB bound holds only for the yieldBody branches. -/
theorem c10_counterexample :
    pollChunkLen (Legacy.pollNext 2 (Legacy.State.new [98] [c10input])).2 = 8194 ∧
    (Legacy.State.new [98] [c10input]).max_buf_size = 8192 := by
  constructor
  · have h := c10run 8189
    have hw : c10wire 8189 = c10input := by norm_num [c10wire, c10input]
    rw [hw] at h
    norm_num at h
    exact h
  · simp [Legacy.State.new, DEFAULT_BUF_SIZE]

/-- C5 (amended): for every boundary, a stream consisting of only the
closing boundary line yields zero fields (end of stream on the first
poll, no part indexed), reaches end of stream, and reports as its length
the byte length of that input (not 0). -/
theorem c5_closing_only_stream (b : List Byte) :
    (Legacy.pollNext 2 (Legacy.State.new b [closingWire b])).2 = .done ∧
    (Legacy.pollNext 2 (Legacy.State.new b [closingWire b])).1.index = none ∧
    (Legacy.pollNext 2 (Legacy.State.new b [closingWire b])).1.eof = true ∧
    (Legacy.pollNext 2 (Legacy.State.new b [closingWire b])).1.length =
      (closingWire b).length := by
  have e1 : findSub CRLFDD CRLF = none := by decide
  have e2 : findSub CRLFDD (Legacy.delimClose b) = some 0 :=
    findSub_of_isPrefixOf ⟨b ++ (DASH :: DASH :: CRLF), rfl⟩
  have e3 : findSub (Legacy.delimOpen b) (Legacy.delimClose b) = none :=
    delimOpen_not_in_delimClose b
  have e4 : findSub (Legacy.delimClose b) (Legacy.delimClose b) = some 0 :=
    findSub_of_isPrefixOf (List.prefix_refl _)
  have hbuf : CRLF ++ closingWire b = Legacy.delimClose b := rfl
  refine ⟨?_, ?_, ?_, ?_⟩ <;>
    simp [Legacy.pollNext, Legacy.runLoop, Legacy.step, Legacy.bodyPhase,
      Legacy.bodyYPhase, Legacy.bodyYSome, Legacy.bodyTail, Legacy.headerPhase,
      Legacy.ioPhase, Legacy.State.new, Legacy.Cursor.new, Legacy.State.buf,
      e1, e2, e3, e4, hbuf, List.drop_length]

/-- C6 (amended): when the two bytes after the boundary are neither "--"
nor CRLF, the copy-2 scanner ends the stream without a hard error on the
first poll: no field is counted, eof is set, and the running length stays
the full ingested byte count (no downward adjustment happens on this
path; the adjustment belongs to the "--" branch alone). -/
theorem c6_malformed_terminator_eof (b : List Byte) (t1 t2 : Byte) (rest : List Byte)
    (h1 : ¬ [t1, t2] = DASHES) (h2 : ¬ [t1, t2] = CRLF)
    (h3 : findSub CRLFCRLF (t1 :: t2 :: rest) = none) :
    (Legacy2.pollNext 2 (Legacy2.State.new b [c6wire b t1 t2 rest])).2 = .done ∧
    (Legacy2.pollNext 2 (Legacy2.State.new b [c6wire b t1 t2 rest])).1.eof = true ∧
    (Legacy2.pollNext 2 (Legacy2.State.new b [c6wire b t1 t2 rest])).1.total = 0 ∧
    (Legacy2.pollNext 2 (Legacy2.State.new b [c6wire b t1 t2 rest])).1.length =
      (c6wire b t1 t2 rest).length := by
  have f1 : findSub CRLFDD (CR :: LF :: DASH :: DASH :: (b ++ t1 :: t2 :: rest)) = some 0 :=
    findSub_of_isPrefixOf ⟨b ++ (t1 :: t2 :: rest), rfl⟩
  have ha : 4 + b.length ≤ b.length + (rest.length + 1 + 1) + 2 := by omega
  have hb : 2 ≤ rest.length + 1 + 1 := by omega
  have hbuf : CRLF ++ DASH :: DASH :: (b ++ t1 :: t2 :: rest) =
      CR :: LF :: DASH :: DASH :: (b ++ t1 :: t2 :: rest) := rfl
  have hdrop : List.take b.length (b ++ t1 :: t2 :: rest) = b := List.take_left _ _
  have hdrop2 : List.drop b.length (b ++ t1 :: t2 :: rest) = t1 :: t2 :: rest :=
    List.drop_left _ _
  have hcnt : 4 + b.length - 2 - 2 = b.length := by omega
  have hCRLFlen : CRLF.length = 2 := rfl
  have hno : ¬ (4 + b.length + 2 ≤ 2) := by omega
  refine ⟨?_, ?_, ?_, ?_⟩ <;>
    simp [Legacy2.pollNext, Legacy2.runLoop, Legacy2.step, Legacy2.bodyPhase,
      Legacy2.xsomePhase, Legacy2.headerPhase, Legacy2.ioPhase,
      Legacy2.State.new, Legacy2.State.minSize, c6wire,
      f1, ha, hb, hbuf, hdrop, hdrop2, hcnt, h1, h2, h3, hCRLFlen, hno]

set_option maxHeartbeats 4000000 in
/-- C6 counterexample: boundary "b" followed by the malformed terminator
"xx": the scanner ends the stream, but the reported length is the full 5
ingested bytes, not 3 (the count adjusted downward by the 2 unconsumed
trailer bytes that the claim describes). -/
theorem c6_counterexample :
    (Legacy2.pollNext 2 (Legacy2.State.new [98] [ascii "--bxx"])).2 = .done ∧
    (Legacy2.pollNext 2 (Legacy2.State.new [98] [ascii "--bxx"])).1.eof = true ∧
    (Legacy2.pollNext 2 (Legacy2.State.new [98] [ascii "--bxx"])).1.length = 5 ∧
    ¬ ((Legacy2.pollNext 2 (Legacy2.State.new [98] [ascii "--bxx"])).1.length = 3) := by
  refine ⟨by decide, by decide, by decide, by decide⟩

/-- C6 witness: boundary "b", terminator bytes "xx", empty residue. -/
theorem c6_witness :
    (¬ ([120, 120] : List Byte) = DASHES) ∧ (¬ ([120, 120] : List Byte) = CRLF) ∧
    findSub CRLFCRLF [120, 120] = none ∧
    (Legacy2.pollNext 2 (Legacy2.State.new [98] [c6wire [98] 120 120 []])).2 = .done :=
  ⟨by decide, by decide, by decide,
    (c6_malformed_terminator_eof [98] 120 120 [] (by decide) (by decide) (by decide)).1⟩

/-- Scanning plain bytes (no semicolon, space or equals) only advances
the cursor of the parameter scanner. -/
theorem cdRun (hv : List Byte) (cs todo : List Byte) (i j p : Nat)
    (v : List (List Byte × List Byte))
    (h : ∀ c ∈ cs, c ≠ 59 ∧ c ≠ 32 ∧ c ≠ 61) :
    cdLoop hv (cs ++ todo) i j p v = cdLoop hv todo (i + cs.length) j p v := by
  induction cs generalizing i with
  | nil => simp
  | cons c cs ih =>
    obtain ⟨h1, h2, h3⟩ := h c (by simp)
    rw [List.cons_append]
    rw [show cdLoop hv (c :: (cs ++ todo)) i j p v = cdLoop hv (cs ++ todo) (i + 1) j p v from by
      simp only [cdLoop]
      rw [if_neg h1, if_neg h2, if_neg h3]]
    rw [ih (i + 1) (fun c hc => h c (List.mem_cons_of_mem _ hc))]
    have : i + 1 + cs.length = i + (cs.length + 1) := by omega
    rw [this, List.length_cons]


/-- cdLoop branch rules (one per byte class, for rewriting). -/
theorem cdLoop_semi0 {hv : List Byte} {todo : List Byte} {i j : Nat}
    {v : List (List Byte × List Byte)} :
    cdLoop hv (59 :: todo) i j 0 v = cdLoop hv todo (i + 1) (i + 1) 0 v := by
  simp [cdLoop]

theorem cdLoop_space0 {hv : List Byte} {todo : List Byte} {i j : Nat}
    {v : List (List Byte × List Byte)} :
    cdLoop hv (32 :: todo) i j 0 v = cdLoop hv todo (i + 1) (i + 1) 0 v := by
  simp [cdLoop]

theorem cdLoop_eqsign {hv : List Byte} {todo : List Byte} {i j p : Nat}
    {v : List (List Byte × List Byte)} :
    cdLoop hv (61 :: todo) i j p v =
      cdLoop hv todo (i + 1) (i + 1) 1 (v ++ [((hv.take i).drop j, [])]) := by
  simp [cdLoop]

theorem cdLoop_other {hv : List Byte} (c : Byte) {todo : List Byte} {i j p : Nat}
    {v : List (List Byte × List Byte)}
    (h1 : c ≠ 59) (h2 : c ≠ 32) (h3 : c ≠ 61) :
    cdLoop hv (c :: todo) i j p v = cdLoop hv todo (i + 1) j p v := by
  simp only [cdLoop]
  rw [if_neg h1, if_neg h2, if_neg h3]

set_option maxHeartbeats 1600000 in
/-- parse_content_disposition accepts the encoded value form-data;
name="NAME" for a plain nonempty NAME, producing the name and no
filename. -/
theorem cd_ok (name : List Byte) (hne : name ≠ [])
    (hpl : ∀ c ∈ name, plainNameByte c) :
    parse_content_disposition (ascii "form-data; name=" ++ (34 :: (name ++ [34]))) =
      .ok name none := by
  have hn1 : 0 < name.length := by
    cases name
    · exact absurd rfl hne
    · simp
  have elit : ascii "form-data; name=" =
      [102, 111, 114, 109, 45, 100, 97, 116, 97, 59, 32, 110, 97, 109, 101, 61] := by
    decide
  have e0 : ascii "form-data; name=" ++ (34 :: (name ++ [34])) =
      102 :: 111 :: 114 :: 109 :: 45 :: 100 :: 97 :: 116 :: 97 :: 59 :: 32 ::
      110 :: 97 :: 109 :: 101 :: 61 :: 34 :: (name ++ [34]) := by
    rw [elit]
    rfl
  unfold parse_content_disposition
  rw [if_neg ?hA, if_neg ?hB]
  case hA =>
    rw [e0, show (ascii "form-data; name=\x22s\x22").length = 19 from by decide]
    simp
    omega
  case hB =>
    rw [e0, show ascii "form-data" = [102, 111, 114, 109, 45, 100, 97, 116, 97] from by decide]
    simp
  rw [e0]
  rw [show (102 :: 111 :: 114 :: 109 :: 45 :: 100 :: 97 :: 116 :: 97 :: 59 :: 32 :: 110 :: 97 :: 109 :: 101 :: 61 :: 34 :: (name ++ [34])).drop 9 = 59 :: 32 :: 110 :: 97 :: 109 :: 101 :: 61 :: 34 :: (name ++ [34]) from rfl]
  rw [show (102 :: 111 :: 114 :: 109 :: 45 :: 100 :: 97 :: 116 :: 97 :: 59 :: 32 :: 110 :: 97 :: 109 :: 101 :: 61 :: 34 :: (name ++ [34])).take 9 = [102, 111, 114, 109, 45, 100, 97, 116, 97] from rfl]
  rw [cdLoop_semi0, cdLoop_space0,
    cdLoop_other 110 (by decide) (by decide) (by decide),
    cdLoop_other 97 (by decide) (by decide) (by decide),
    cdLoop_other 109 (by decide) (by decide) (by decide),
    cdLoop_other 101 (by decide) (by decide) (by decide),
    cdLoop_eqsign,
    cdLoop_other 34 (by decide) (by decide) (by decide)]
  rw [cdRun _ name [34] _ _ _ _
    (fun c hc => ⟨(hpl c hc).2.2.1, (hpl c hc).2.2.2.1, (hpl c hc).2.2.2.2.1⟩)]
  rw [cdLoop_other 34 (by decide) (by decide) (by decide)]
  norm_num
  have q1 : (102 :: 111 :: 114 :: 109 :: 45 :: 100 :: 97 :: 116 :: 97 :: 59 :: 32 :: 110 :: 97 :: 109 :: 101 :: 61 :: 34 :: (name ++ [34]))[(16:Nat)]? = some 34 := by simp
  have q2 : (102 :: 111 :: 114 :: 109 :: 45 :: 100 :: 97 :: 116 :: 97 :: 59 :: 32 :: 110 :: 97 :: 109 :: 101 :: 61 :: 34 :: (name ++ [34]))[17 + name.length]? = some 34 := by
    rw [show (102 :: 111 :: 114 :: 109 :: 45 :: 100 :: 97 :: 116 :: 97 :: 59 :: 32 :: 110 :: 97 :: 109 :: 101 :: 61 :: 34 :: (name ++ [34])) = ([102, 111, 114, 109, 45, 100, 97, 116, 97, 59, 32, 110, 97, 109, 101, 61, 34] : List Byte) ++ (name ++ [34]) from rfl]
    rw [List.getElem?_append_right (by rw [show (([102, 111, 114, 109, 45, 100, 97, 116, 97, 59, 32, 110, 97, 109, 101, 61, 34] : List Byte)).length = 17 from by decide]; omega)]
    rw [show 17 + name.length - (([102, 111, 114, 109, 45, 100, 97, 116, 97, 59, 32, 110, 97, 109, 101, 61, 34] : List Byte)).length = name.length from by
      rw [show (([102, 111, 114, 109, 45, 100, 97, 116, 97, 59, 32, 110, 97, 109, 101, 61, 34] : List Byte)).length = 17 from by decide]; omega]
    rw [List.getElem?_append_right (by omega)]
    simp
  have hsl : ((102 :: 111 :: 114 :: 109 :: 45 :: 100 :: 97 :: 116 :: 97 :: 59 :: 32 :: 110 :: 97 :: 109 :: 101 :: 61 :: 34 :: (name ++ [34])).take (17 + name.length)).drop 17 = name := by
    rw [show (102 :: 111 :: 114 :: 109 :: 45 :: 100 :: 97 :: 116 :: 97 :: 59 :: 32 :: 110 :: 97 :: 109 :: 101 :: 61 :: 34 :: (name ++ [34])) = (([102, 111, 114, 109, 45, 100, 97, 116, 97, 59, 32, 110, 97, 109, 101, 61, 34] : List Byte) ++ name) ++ [34] from rfl]
    rw [show 17 + name.length = (([102, 111, 114, 109, 45, 100, 97, 116, 97, 59, 32, 110, 97, 109, 101, 61, 34] : List Byte) ++ name).length from by
      rw [List.length_append, show (([102, 111, 114, 109, 45, 100, 97, 116, 97, 59, 32, 110, 97, 109, 101, 61, 34] : List Byte)).length = 17 from by decide]]
    rw [List.take_left]
    rw [show (17:Nat) = (([102, 111, 114, 109, 45, 100, 97, 116, 97, 59, 32, 110, 97, 109, 101, 61, 34] : List Byte)).length from by decide]
    exact List.drop_left _ _
  have hquote : quoteSlice (102 :: 111 :: 114 :: 109 :: 45 :: 100 :: 97 :: 116 :: 97 :: 59 :: 32 :: 110 :: 97 :: 109 :: 101 :: 61 :: 34 :: (name ++ [34])) 16 (17 + name.length + 1) = some name := by
    unfold quoteSlice
    rw [show 17 + name.length + 1 - 1 = 17 + name.length from by omega]
    rw [q1, q2]
    simp only []
    rw [if_pos (⟨trivial, trivial⟩ : True ∧ True)]
    rw [if_pos (by omega : 16 + 1 ≤ 17 + name.length)]
    rw [show (16:Nat) + 1 = 17 from rfl, hsl]
  simp only [cdLoop]
  rw [hquote]
  simp [updLast, cdFinalize, hne,
    show ([110, 97, 109, 101] : List Byte) = ascii "name" from by decide]

set_option maxHeartbeats 4000000 in
/-- parse_part_headers on the encoded header block of a part with a
plain name: one content-disposition header whose value is the encoded
disposition. -/
theorem pph_ok (p : Part) (hpl : ∀ c ∈ p.name, plainNameByte c) :
    parse_part_headers (partHeader p ++ CRLFCRLF) =
      some [(ascii "content-disposition",
             ascii "form-data; name=" ++ (34 :: (p.name ++ [34])))] := by
  have hCR : CR ∉ partHeader p := by
    intro h
    rw [partHeader] at h
    rw [show ascii "content-disposition" =
        [99, 111, 110, 116, 101, 110, 116, 45, 100, 105, 115, 112, 111, 115,
         105, 116, 105, 111, 110] from by decide] at h
    rw [show ascii " form-data; name=" =
        [32, 102, 111, 114, 109, 45, 100, 97, 116, 97, 59, 32, 110, 97, 109,
         101, 61] from by decide] at h
    simp [CR] at h
    exact absurd ((hpl 13 h).1) (by simp [CR])
  have hlineFind : findSub CRLF (partHeader p ++ CRLFCRLF) =
      some (partHeader p).length :=
    findSub_append_here hCR ⟨CRLF, rfl⟩
  have hphlen : (partHeader p).length = p.name.length + 39 := by
    rw [partHeader]
    simp [List.length_append, ascii]
  have htake : (partHeader p ++ CRLFCRLF).take (partHeader p).length = partHeader p :=
    List.take_left _ _
  have hf58 : findSub [58] (partHeader p) = some (ascii "content-disposition").length :=
    findSub_append_here (by decide)
      ⟨ascii " form-data; name=" ++ (34 :: (p.name ++ [34])), rfl⟩
  rw [show (ascii "content-disposition").length = 19 from by decide] at hf58
  have htk19 : (partHeader p).take 19 = ascii "content-disposition" := by
    rw [partHeader, show (19:Nat) = (ascii "content-disposition").length from by decide]
    exact List.take_left _ _
  have hdrop20 : (partHeader p).drop (19 + 1) =
      ascii " form-data; name=" ++ (34 :: (p.name ++ [34])) := by
    rw [partHeader]
    rw [show ascii "content-disposition" ++
        (58 :: (ascii " form-data; name=" ++ (34 :: (p.name ++ [34])))) =
        (ascii "content-disposition" ++ [58]) ++
        (ascii " form-data; name=" ++ (34 :: (p.name ++ [34]))) from rfl]
    rw [show (19:Nat) + 1 = (ascii "content-disposition" ++ [58]).length from by decide]
    exact List.drop_left _ _
  have hdw : (ascii " form-data; name=" ++ (34 :: (p.name ++ [34]))).dropWhile
      (fun c => c = 32) = ascii "form-data; name=" ++ (34 :: (p.name ++ [34])) := by
    rw [show ascii " form-data; name=" = 32 :: ascii "form-data; name=" from by decide,
      List.cons_append, List.dropWhile_cons]
    rw [if_pos (by decide)]
    rw [show ascii "form-data; name=" = 102 :: ascii "orm-data; name=" from by decide,
      List.cons_append, List.dropWhile_cons]
    rw [if_neg (by decide)]
  have hline : parseHeaderLine (partHeader p) =
      some (ascii "content-disposition",
            ascii "form-data; name=" ++ (34 :: (p.name ++ [34]))) := by
    unfold parseHeaderLine
    rw [hf58]
    simp only [htk19, hdrop20, hdw]
    rw [show toLower (ascii "content-disposition") = ascii "content-disposition" from by decide]
  have hdropLine : (partHeader p ++ CRLFCRLF).drop ((partHeader p).length + 2) = CRLF := by
    rw [show (CRLFCRLF : List Byte) = CRLF ++ CRLF from rfl, ← List.append_assoc]
    rw [show (partHeader p).length + 2 = (partHeader p ++ CRLF).length from by
      simp [CRLF]]
    exact List.drop_left _ _
  have hplCRLF : ∀ fuel, parseHeaderLines (fuel + 1) CRLF = some [] := by
    intro fuel
    simp [parseHeaderLines, findSub_of_isPrefixOf (List.prefix_refl CRLF)]
  have hblen : (partHeader p ++ CRLFCRLF).length = (p.name.length + 42) + 1 := by
    simp [hphlen, CRLFCRLF]
  have hstep : ∀ (l : List Byte) (fuel : Nat), parseHeaderLines (fuel + 1) l =
      (match findSub CRLF l with
       | none => none
       | some i =>
         if i = 0 then some []
         else
           match parseHeaderLine (l.take i), parseHeaderLines fuel (l.drop (i + 2)) with
           | some h, some hs => some (h :: hs)
           | _, _ => none) := fun l fuel => rfl
  unfold parse_part_headers
  rw [hblen, hstep, hlineFind]
  simp only []
  rw [if_neg (show ¬ ((partHeader p).length = 0) from by rw [hphlen]; omega)]
  rw [htake, hline, hdropLine, hplCRLF]
  simp only []
  simp

/-- The encoded header line of a plain-named part contains no CR. -/
theorem partHeader_CR_free (p : Part) (hpl : ∀ c ∈ p.name, plainNameByte c) :
    CR ∉ partHeader p := by
  intro h
  rw [partHeader] at h
  rw [show ascii "content-disposition" =
      [99, 111, 110, 116, 101, 110, 116, 45, 100, 105, 115, 112, 111, 115,
       105, 116, 105, 111, 110] from by decide] at h
  rw [show ascii " form-data; name=" =
      [32, 102, 111, 114, 109, 45, 100, 97, 116, 97, 59, 32, 110, 97, 109,
       101, 61] from by decide] at h
  simp [CR] at h
  exact absurd ((hpl 13 h).1) (by simp [CR])

/-- Taking a header-block prefix through the blank line. -/
theorem take_header (A T : List Byte) :
    (A ++ (CRLFCRLF ++ T)).take (A.length + 4) = A ++ CRLFCRLF := by
  rw [show A ++ (CRLFCRLF ++ T) = (A ++ CRLFCRLF) ++ T from
    (List.append_assoc _ _ _).symm]
  rw [show A.length + 4 = (A ++ CRLFCRLF).length from by simp [CRLFCRLF]]
  exact List.take_left _ _

/-- Dropping a header block through the blank line. -/
theorem drop_header (A T : List Byte) :
    (A ++ (CRLFCRLF ++ T)).drop (A.length + 4) = T := by
  rw [show A ++ (CRLFCRLF ++ T) = (A ++ CRLFCRLF) ++ T from
    (List.append_assoc _ _ _).symm]
  rw [show A.length + 4 = (A ++ CRLFCRLF).length from by simp [CRLFCRLF]]
  exact List.drop_left _ _

set_option maxHeartbeats 1600000 in
/-- Polling FormData between parts yields the next part's Field and
parks the scanner at the start of that part's body. -/
theorem formPoll_mid (b : List Byte) (full k : Nat) (p : Part) (rest : List Part)
    (hne : p.name ≠ []) (hpl : ∀ c ∈ p.name, plainNameByte c) :
    formPoll false 4 (midState b full k (p :: rest)) =
      (bodyState b full k p rest, .field (fieldFor k p)) := by
  have hCR := partHeader_CR_free p hpl
  have hfind : findSub CRLFCRLF
      (partHeader p ++ (CRLFCRLF ++ (p.body ++ (delim b ++ contEnc b rest)))) =
      some (partHeader p).length :=
    findSub_append_here hCR (List.prefix_append _ _)
  have htk := take_header (partHeader p) (p.body ++ (delim b ++ contEnc b rest))
  have hdr := drop_header (partHeader p) (p.body ++ (delim b ++ contEnc b rest))
  have hpph := pph_ok p hpl
  have hcd := cd_ok p.name hne hpl
  simp [formPoll, midState, mloop, mstep, decode, decodeHeaded, decodeHeader,
    contEnc, hfind, htk, hdr, hpph, hcd, bodyState, fieldFor,
    Limits.checked_parts, Limits.checked_fields, Limits.checked_field_name_size,
    noLimits, removeHeader,
    show ((CR : Byte) :: LF ::
      (partHeader p ++ (CRLFCRLF ++ (p.body ++ (delim b ++ contEnc b rest))))).take 2 =
      CRLF from rfl,
    show ascii "content-type" = [99, 111, 110, 116, 101, 110, 116, 45, 116,
      121, 112, 101] from by decide,
    show ascii "content-disposition" = [99, 111, 110, 116, 101, 110, 116, 45,
      100, 105, 115, 112, 111, 115, 105, 116, 105, 111, 110] from by decide,
    show ∀ n : Nat, (n + 1 + 1 < 2) = False from fun n => eq_false (by omega)]

set_option maxHeartbeats 1600000 in
/-- Draining a Field consumes the part body (one chunk when nonempty),
ends cleanly, records the body length, and parks the scanner between
parts. -/
theorem drain_body (b : List Byte) (full k : Nat) (p : Part) (rest : List Part)
    (hCRb : CR ∉ p.body) :
    drain 4 (fieldFor k p) (bodyState b full k p rest) [] =
      ({ fieldFor k p with length := p.body.length, hasState := false },
       midState b full (k + 1) rest,
       (if p.body = [] then [] else [p.body]), true) := by
  have hdlft : (delim b ++ contEnc b rest).drop (delim b).length = contEnc b rest :=
    List.drop_left _ _
  by_cases hbody : p.body = []
  · have hfind0 : findSub (delim b) (delim b ++ contEnc b rest) = some 0 :=
      findSub_of_isPrefixOf (List.prefix_append _ _)
    simp [drain, fieldPoll, fieldFor, bodyState, midState, mloop, mstep, decode,
      decodeDelimiting, decodeHeading, hbody, hfind0, hdlft]
  · have hfind : findSub (delim b) (p.body ++ (delim b ++ contEnc b rest)) =
        some p.body.length :=
      findSub_append_here hCRb (List.prefix_append _ _)
    have htake : (p.body ++ (delim b ++ contEnc b rest)).take p.body.length = p.body :=
      List.take_left _ _
    have hdrop : (p.body ++ (delim b ++ contEnc b rest)).drop p.body.length =
        delim b ++ contEnc b rest :=
      List.drop_left _ _
    have hne0 : ¬ (p.body.length = 0) := by
      cases hb : p.body
      · exact absurd hb hbody
      · simp [hb]
    simp [drain, fieldPoll, fieldFor, bodyState, midState, mloop, mstep, decode,
      decodeDelimiting, decodeHeading, hbody, hfind, htake, hdrop, hdlft, hne0,
      Limits.checked_field_size, noLimits]

set_option maxHeartbeats 1600000 in
/-- The first FormData poll of a session with at least one part pulls
the wire, consumes the preamble delimiter and the first header block,
and yields the first Field. -/
theorem formPoll_first (b : List Byte) (p : Part) (rest : List Part)
    (hne : p.name ≠ []) (hpl : ∀ c ∈ p.name, plainNameByte c) :
    formPoll false 4 (initSession b (p :: rest)) =
      (bodyState b (wire b (p :: rest)).length 0 p rest, .field (fieldFor 0 p)) := by
  have hCR := partHeader_CR_free p hpl
  have hfind : findSub CRLFCRLF
      (partHeader p ++ (CRLFCRLF ++ (p.body ++ (delim b ++ contEnc b rest)))) =
      some (partHeader p).length :=
    findSub_append_here hCR (List.prefix_append _ _)
  have htk := take_header (partHeader p) (p.body ++ (delim b ++ contEnc b rest))
  have hdr := drop_header (partHeader p) (p.body ++ (delim b ++ contEnc b rest))
  have hpph := pph_ok p hpl
  have hcd := cd_ok p.name hne hpl
  have hbuf : CRLF ++ wire b (p :: rest) = delim b ++ contEnc b (p :: rest) := rfl
  have hfd : findSub (delim b) (delim b ++ contEnc b (p :: rest)) = some 0 :=
    findSub_of_isPrefixOf (List.prefix_append _ _)
  have hddrop : (delim b ++ contEnc b (p :: rest)).drop (delim b).length =
      contEnc b (p :: rest) := List.drop_left _ _
  have hwne : ((wire b (p :: rest)).length = 0) = False := eq_false (by simp [wire])
  have hct : (contEnc b (p :: rest)).take 2 = CRLF := rfl
  have hclen : ((contEnc b (p :: rest)).length < 2) = False := by
    rw [show contEnc b (p :: rest) =
      CR :: LF :: (partHeader p ++ (CRLFCRLF ++ (p.body ++ (delim b ++ contEnc b rest)))) from rfl]
    exact eq_false (by simp)
  have hcd2 : (contEnc b (p :: rest)).drop 2 =
      partHeader p ++ (CRLFCRLF ++ (p.body ++ (delim b ++ contEnc b rest))) := rfl
  simp [formPoll, initSession, MState.new, mloop, mstep, decode, decodeDelimiting,
    decodeHeaded, decodeHeader, decodeHeading,
    hbuf, hfd, hddrop, hwne, hct, hclen, hcd2, hfind, htk, hdr, hpph, hcd,
    bodyState, fieldFor,
    Limits.checked_parts, Limits.checked_fields, Limits.checked_field_name_size,
    Limits.checked_stream_size, noLimits, removeHeader,
    show ascii "content-type" = [99, 111, 110, 116, 101, 110, 116, 45, 116,
      121, 112, 101] from by decide,
    show ascii "content-disposition" = [99, 111, 110, 116, 101, 110, 116, 45,
      100, 105, 115, 112, 111, 115, 105, 116, 105, 111, 110] from by decide]

/-- Polling FormData with no part left consumes the closing line and
ends the stream. -/
theorem drive_done (b : List Byte) (full k : Nat) (acc : List RecOut) (n : Nat) :
    (drive (n + 1) (midState b full k []) acc).1 = acc.reverse ∧
    (drive (n + 1) (midState b full k []) acc).2.2 = true := by
  have ht2 : (contEnc b []).take 2 = DASHES := rfl
  have hlt : ((contEnc b []).length < 2) = False := by
    rw [show contEnc b [] = DASH :: DASH :: CRLF from rfl]
    decide
  constructor <;>
    simp [drive, formPoll, midState, mloop, mstep, decode, decodeHeaded,
      ht2, hlt,
      show ¬ ((DASHES : List Byte) = CRLF) from by decide]

/-- Session invariant: from the between-parts state, driving consumes
the remaining parts into their expected records and ends cleanly. -/
theorem drive_mid (b : List Byte) (full : Nat) (rest : List Part) :
    ∀ (k : Nat) (acc : List RecOut), Valid rest →
    (drive (rest.length + 1) (midState b full k rest) acc).1 =
      acc.reverse ++ rest.map expectedRec ∧
    (drive (rest.length + 1) (midState b full k rest) acc).2.2 = true := by
  induction rest with
  | nil =>
    intro k acc h
    simpa using drive_done b full k acc 0
  | cons p ps ih =>
    intro k acc hv
    obtain ⟨hne, hpl, hcr⟩ := hv p (by simp)
    have hv' : Valid ps := fun q hq => hv q (List.mem_cons_of_mem _ hq)
    have hstep : drive ((p :: ps).length + 1) (midState b full k (p :: ps)) acc =
        drive (ps.length + 1) (midState b full (k + 1) ps) (expectedRec p :: acc) := by
      rw [show (p :: ps).length + 1 = (ps.length + 1) + 1 from by simp]
      rw [show drive ((ps.length + 1) + 1) (midState b full k (p :: ps)) acc =
          (match formPoll false 4 (midState b full k (p :: ps)) with
           | (st, .done) => (acc.reverse, st, true)
           | (st, .field f) =>
             (match drain 4 f st [] with
              | (f, st, chunks, true) =>
                drive (ps.length + 1) st
                  ({ name := f.name, filename := f.filename, chunks
                     length := f.length } :: acc)
              | (_, st, _, false) => (acc.reverse, st, false))
           | (st, _) => (acc.reverse, st, false)) from rfl]
      rw [formPoll_mid b full k p ps hne hpl]
      simp only []
      rw [drain_body b full k p ps hcr]
      simp only []
      congr 1
    rw [hstep]
    obtain ⟨h1, h2⟩ := ih (k + 1) (expectedRec p :: acc) hv'
    refine ⟨?_, h2⟩
    rw [h1]
    simp

/-- The chunk lengths of an expected record sum to its length. -/
theorem expectedRec_sum (q : Part) :
    (((expectedRec q).chunks.map List.length).sum : Nat) = (expectedRec q).length := by
  by_cases h : q.body = [] <;> simp [expectedRec, h]

/-- A session over zero parts: the first poll consumes the closing line
and ends the stream with no records. -/
theorem drive_empty (b : List Byte) :
    (drive 1 (initSession b []) []).1 = ([] : List RecOut) ∧
    (drive 1 (initSession b []) []).2.2 = true := by
  have hbuf : CRLF ++ wire b [] = delim b ++ contEnc b [] := rfl
  have hfd : findSub (delim b) (delim b ++ contEnc b []) = some 0 :=
    findSub_of_isPrefixOf (List.prefix_append _ _)
  have hddrop : (delim b ++ contEnc b []).drop (delim b).length = contEnc b [] :=
    List.drop_left _ _
  have hwne : ((wire b []).length = 0) = False := eq_false (by simp [wire])
  have ht2 : (contEnc b []).take 2 = DASHES := rfl
  have hlt : ((contEnc b []).length < 2) = False := by
    rw [show contEnc b [] = DASH :: DASH :: CRLF from rfl]
    decide
  constructor <;>
    simp [drive, formPoll, initSession, MState.new, mloop, mstep, decode,
      decodeDelimiting, decodeHeaded, decodeHeading,
      hbuf, hfd, hddrop, hwne, ht2, hlt,
      Limits.checked_stream_size, noLimits,
      show ¬ ((DASHES : List Byte) = CRLF) from by decide]

/-- C1: for every boundary and every valid part list, driving the
session yields exactly one record per part, in wire order, with the
expected name and body chunks; the stream ends cleanly and each field's
body-chunk lengths sum to the field's recorded length. -/
theorem c1_valid_multipart_roundtrip (b : List Byte) (ps : List Part) (h : Valid ps) :
    (drive (ps.length + 1) (initSession b ps) []).1 = ps.map expectedRec ∧
    (drive (ps.length + 1) (initSession b ps) []).2.2 = true ∧
    ∀ r ∈ (drive (ps.length + 1) (initSession b ps) []).1,
      (r.chunks.map List.length).sum = r.length := by
  have hmain : (drive (ps.length + 1) (initSession b ps) []).1 = ps.map expectedRec ∧
      (drive (ps.length + 1) (initSession b ps) []).2.2 = true := by
    cases ps with
    | nil => simpa using drive_empty b
    | cons p rest =>
      obtain ⟨hne, hpl, hcr⟩ := h p (by simp)
      have hv' : Valid rest := fun q hq => h q (List.mem_cons_of_mem _ hq)
      have hstep : drive ((p :: rest).length + 1) (initSession b (p :: rest)) [] =
          drive (rest.length + 1)
            (midState b (wire b (p :: rest)).length 1 rest) [expectedRec p] := by
        rw [show (p :: rest).length + 1 = (rest.length + 1) + 1 from by simp]
        rw [show drive ((rest.length + 1) + 1) (initSession b (p :: rest)) [] =
            (match formPoll false 4 (initSession b (p :: rest)) with
             | (st, .done) => (([] : List RecOut).reverse, st, true)
             | (st, .field f) =>
               (match drain 4 f st [] with
                | (f, st, chunks, true) =>
                  drive (rest.length + 1) st
                    ({ name := f.name, filename := f.filename, chunks
                       length := f.length } :: ([] : List RecOut))
                | (_, st, _, false) => (([] : List RecOut).reverse, st, false))
             | (st, _) => (([] : List RecOut).reverse, st, false)) from rfl]
        rw [formPoll_first b p rest hne hpl]
        simp only []
        rw [drain_body b (wire b (p :: rest)).length 0 p rest hcr]
        simp only []
        congr 1
      rw [hstep]
      obtain ⟨h1, h2⟩ :=
        drive_mid b (wire b (p :: rest)).length rest 1 [expectedRec p] hv'
      refine ⟨?_, h2⟩
      rw [h1]
      simp
  refine ⟨hmain.1, hmain.2, ?_⟩
  rw [hmain.1]
  intro r hr
  obtain ⟨q, hq, rfl⟩ := List.mem_map.mp hr
  exact expectedRec_sum q


/-- C1 witness: a two-part session (one nonempty body, one empty). -/
theorem c1_witness :
    Valid [⟨ascii "a", ascii "xy"⟩, ⟨ascii "b", []⟩] ∧
    (drive 3 (initSession [98]
        [⟨ascii "a", ascii "xy"⟩, ⟨ascii "b", []⟩]) []).1 =
      ([⟨ascii "a", ascii "xy"⟩, ⟨ascii "b", []⟩] : List Part).map expectedRec :=
  ⟨by decide,
   (c1_valid_multipart_roundtrip [98]
     [⟨ascii "a", ascii "xy"⟩, ⟨ascii "b", []⟩] (by decide)).1⟩


end FormData
